import Mathlib

/-!
Verification development for the aptidude/frontend-astro SEO / sitemap
generation layer.  JavaScript strings are modelled as `List Char`
(`Str`), JS `Map`s as association lists, and the paginated fetcher as a
fuel-indexed loop over an abstract backend.  Every definition is a
shallow embedding of the corresponding function in
`src/utils/seoGenerator.ts`, `src/utils/dataFetcher.ts` or
`src/pages/sitemap.xml.ts`.
-/

set_option maxRecDepth 10000

/-- JavaScript strings are sequences of characters. -/
abbrev Str := List Char

/-- Convert a Lean string literal into the `Str` model. -/
def strL (s : String) : Str := s.data

/-- Model of JS `String.prototype.toLowerCase` (ASCII-adequate). -/
def jsLower (s : Str) : Str := s.map Char.toLower

/-- Characters matched by the JS regex class `\s` (the ones relevant here). -/
def isJsSpace (c : Char) : Bool :=
  c = ' ' || c = '\t' || c = '\n' || c = '\r' || c = '\x0b' || c = '\x0c'

/-- Model of JS `String.prototype.trim`. -/
def jsTrim (s : Str) : Str :=
  ((s.dropWhile isJsSpace).reverse.dropWhile isJsSpace).reverse

/-- Characters kept by `replace(/[^a-z0-9\s]/g, '')`. -/
def keepAlnumSpace (c : Char) : Bool :=
  ('a' ≤ c && c ≤ 'z') || ('0' ≤ c && c ≤ '9') || isJsSpace c

/-- Characters allowed by the slug charset `[a-z0-9-]`. -/
def validSlugChar (c : Char) : Bool :=
  ('a' ≤ c && c ≤ 'z') || ('0' ≤ c && c ≤ '9') || c = '-'

/-- Decimal digit characters `0`–`9`. -/
def isDigitChar (c : Char) : Bool := '0' ≤ c && c ≤ '9'

/-- The decimal digit character for `d < 10` (fallback `*` unused). -/
def digitChar : Nat → Char
  | 0 => '0' | 1 => '1' | 2 => '2' | 3 => '3' | 4 => '4'
  | 5 => '5' | 6 => '6' | 7 => '7' | 8 => '8' | 9 => '9'
  | _ => '*'

/-- Decimal rendering worker; the structural fuel always exceeds `n`, so
the base case is never reached. -/
def natToStrAux : Nat → Nat → Str
  | 0, _ => []
  | fuel + 1, n =>
    if n < 10 then [digitChar n]
    else natToStrAux fuel (n / 10) ++ [digitChar (n % 10)]

/-- Decimal rendering of a natural number, as JS `${n}` renders a
small integer (no sign, no leading zeros). -/
def natToStr (n : Nat) : Str := natToStrAux (n + 1) n

/-- Parse a digit string back to a number (left inverse of `natToStr`). -/
def strToNat (s : Str) : Nat :=
  s.foldl (fun a c => 10 * a + (c.toNat - 48)) 0

/-- `replace(/\s+/g, '-')`: collapse each whitespace run to one hyphen.
The boolean argument records whether the previous character was whitespace. -/
def squashWsAux : Bool → Str → Str
  | _, [] => []
  | prev, c :: rest =>
    if isJsSpace c then
      (if prev then squashWsAux true rest else '-' :: squashWsAux true rest)
    else c :: squashWsAux false rest

def squashWs (s : Str) : Str := squashWsAux false s

/-- `split(/\s+/)` on a trimmed string: accumulate the current word
(reversed) and emit it at each whitespace run. -/
def splitWordsGo : Str → Str → List Str
  | [], cur => if cur.isEmpty then [] else [cur.reverse]
  | c :: rest, cur =>
    if isJsSpace c then
      (if cur.isEmpty then splitWordsGo rest [] else cur.reverse :: splitWordsGo rest [])
    else splitWordsGo rest (c :: cur)

def splitWords (s : Str) : List Str := splitWordsGo s []

/-- `replace(/[^a-z0-9-]/g, '-')`. -/
def replaceInvalid (s : Str) : Str :=
  s.map (fun c => if validSlugChar c then c else '-')

/-- `replace(/[-]+/g, '-')` (the source spells the class `-+`): collapse
hyphen runs; the flag records whether
the previous emitted position ended a hyphen run. -/
def collapseHyphensAux : Bool → Str → Str
  | _, [] => []
  | prev, c :: rest =>
    if c = '-' then
      (if prev then collapseHyphensAux true rest else '-' :: collapseHyphensAux true rest)
    else c :: collapseHyphensAux false rest

def collapseHyphens (s : Str) : Str := collapseHyphensAux false s

/-- `replace(/^-|-$/g, '')` removes one leading and one trailing hyphen;
after hyphen collapsing that trims all edge hyphens. -/
def trimLeadHyphen : Str → Str
  | [] => []
  | c :: rest => if c = '-' then rest else c :: rest

def trimTrailHyphen (s : Str) : Str := (trimLeadHyphen s.reverse).reverse

/-- The final sanitization pass of `buildBaseSlug` (line 179 of
seoGenerator.ts): strip invalid characters, collapse hyphen runs, trim
edge hyphens. -/
def sanitizeSlug (s : Str) : Str :=
  trimTrailHyphen (trimLeadHyphen (collapseHyphens (replaceInvalid s)))

/-- JS string truthiness for an optional string field: `undefined` and
the empty string are falsy. -/
def optTruthy : Option Str → Bool
  | none => false
  | some s => !s.isEmpty

/-- JS template-literal interpolation of a possibly-`undefined` string. -/
def optStr : Option Str → Str
  | none => strL "undefined"
  | some s => s

/-- JS `String.prototype.lastIndexOf` for a single character. -/
def lastIndexOfCharAux : Str → Char → Nat → Int → Int
  | [], _, _, best => best
  | x :: xs, c, i, best => lastIndexOfCharAux xs c (i + 1) (if x = c then (i : Int) else best)

def lastIndexOfChar (s : Str) (c : Char) : Int := lastIndexOfCharAux s c 0 (-1)

/-- `s.includes(pat)`. -/
def containsSub (s pat : Str) : Bool := s.tails.any (fun t => pat.isPrefixOf t)

/-- The question record of `src/types.ts` (the fields consumed by the
SEO / fetch layer).  `section` is a Lean keyword, hence `sectionName`. -/
structure Question where
  questionNumber : Nat
  statement : Str
  type : Str
  exam : Option Str
  subExam : Option Str
  sectionName : Option Str
  category : Option Str
  topic : Option Str
  difficulty : Option Str
  tags : Option (List Str)
  updatedAt : Str
  createdAt : Str
deriving DecidableEq

/-! ## seoGenerator.ts: isImageUrl and buildBaseSlug -/

/-- The image file extensions of the regex in `isImageUrl`. -/
def imageExts : List Str :=
  [strL "jpg", strL "jpeg", strL "png", strL "gif", strL "webp", strL "svg", strL "bmp"]

/-- `/\.(jpg|jpeg|png|gif|webp|svg|bmp)(\?|$)/` matches at the start of
the suffix `t`. -/
def extMatchAt (t : Str) : Bool :=
  imageExts.any (fun e =>
    ('.' :: e).isPrefixOf t &&
      ((t.drop (e.length + 1)).isEmpty || (t.drop (e.length + 1)).head? = some '?'))

/-- `isImageUrl` (seoGenerator.ts lines 121-131). -/
def isImageUrl (s : Str) : Bool :=
  let lower := jsLower s
  (strL "http://").isPrefixOf lower || (strL "https://").isPrefixOf lower ||
    lower.tails.any extMatchAt ||
    containsSub lower (strL "cloudinary.com") || containsSub lower (strL "res.cloudinary.com")

/-- `question-<n>`, the degenerate slug for missing/empty inputs. -/
def questionFallback (n : Nat) : Str := strL "question-" ++ natToStr n

/-- The statement token of `buildBaseSlug`: image statements are
replaced by `visual-question`. -/
def statementTextOf (q : Question) : Str :=
  if isImageUrl q.statement then strL "visual-question" else q.statement

/-- The statement part of the slug: lowercase, strip to `[a-z0-9\s]`,
trim, first 8 words joined with hyphens, capped at 50 characters. -/
def statementSlugOf (q : Question) : Str :=
  (List.intercalate ['-']
    ((splitWords (jsTrim ((jsLower (statementTextOf q)).filter keepAlnumSpace))).take 8)).take 50

/-- The exam part: lowercase, whitespace runs to hyphens, capped at 30. -/
def examSlugOf (q : Question) : Str :=
  (squashWs (jsLower (q.exam.getD []))).take 30

/-- The sub-exam part: present only when `subExam` is truthy and not the
literal `"General"`. -/
def subExamSlugOf (q : Question) : Str :=
  match q.subExam with
  | none => []
  | some s => if !s.isEmpty && s ≠ strL "General"
      then (squashWs (jsLower s)).take 30 else []

/-- The topic part: lowercase, strip to `[a-z0-9\s]`, whitespace runs to
hyphens, capped at 30. -/
def topicSlugOf (q : Question) : Str :=
  (squashWs ((jsLower (q.topic.getD [])).filter keepAlnumSpace)).take 30

/-- `parts.join('-')` with the two conditional parts. -/
def slugJoined (q : Question) : Str :=
  List.intercalate ['-']
    ([statementSlugOf q, examSlugOf q] ++
      (if subExamSlugOf q ≠ [] then [subExamSlugOf q] else []) ++
      (if topicSlugOf q ≠ [] then [topicSlugOf q] else []))

/-- The `!q.statement || !q.exam || !q.topic` guard (negated). -/
def fieldsTruthy (q : Question) : Bool :=
  !q.statement.isEmpty && optTruthy q.exam && optTruthy q.topic

/-- The slug after the 200-character truncation check (lines 174-176)
and before the final sanitization pass. -/
def slugTruncated (q : Question) : Str :=
  if 200 < (slugJoined q).length
  then (slugJoined q).take 180 ++ strL "-q" ++ natToStr q.questionNumber
  else slugJoined q

/-- `buildBaseSlug` (seoGenerator.ts lines 137-182). -/
def buildBaseSlug (q : Question) : Str :=
  if !fieldsTruthy q then questionFallback q.questionNumber
  else if (sanitizeSlug (slugTruncated q)).isEmpty then questionFallback q.questionNumber
  else sanitizeSlug (slugTruncated q)

/-- `generateQuickSlug` (seoGenerator.ts lines 188-193). -/
def generateQuickSlug (q : Question) : Str :=
  if !q.statement.isEmpty && optTruthy q.exam && optTruthy q.topic
  then buildBaseSlug q
  else questionFallback q.questionNumber

/-! ## Association-list model of JS `Map` -/

/-- `Map.prototype.get`. -/
def alLookup {K V : Type} [DecidableEq K] : List (K × V) → K → Option V
  | [], _ => none
  | (k', v) :: rest, k => if k' = k then some v else alLookup rest k

/-- `Map.prototype.set`: replace in place, else append (insertion order). -/
def alSet {K V : Type} [DecidableEq K] : List (K × V) → K → V → List (K × V)
  | [], k, v => [(k, v)]
  | (k', v') :: rest, k, v =>
    if k' = k then (k', v) :: rest else (k', v') :: alSet rest k v

/-- The `if (!m.has(k)) m.set(k, []); m.get(k)!.push(v)` idiom. -/
def alPush {K V : Type} [DecidableEq K] (m : List (K × List V)) (k : K) (v : V) :
    List (K × List V) :=
  match alLookup m k with
  | some b => alSet m k (b ++ [v])
  | none => alSet m k [v]

/-- `Array.prototype.indexOf` restricted to elements present in the
array (the only way the source uses it). -/
def idxOfN (n : Nat) : List Nat → Nat
  | [] => 0
  | m :: rest => if m = n then 0 else idxOfN n rest + 1

/-! ## seoGenerator.ts: generateAllSlugs -/

/-- Pass 1 of `generateAllSlugs` (lines 74-81): group question numbers
by base slug, in input order. -/
def baseSlugCounts (questions : List Question) : List (Str × List Nat) :=
  questions.foldl (fun m q => alPush m (buildBaseSlug q) q.questionNumber) []

/-- The slug pass 2 assigns to one question (lines 84-97): the bare base
slug when it is unshared, otherwise `base-<rank>` where rank is the
1-based position of the question's number in the ascending sort of the
colliding numbers. -/
def slugAssigned (questions : List Question) (q : Question) : Str :=
  let baseSlug := buildBaseSlug q
  let questionNumbers := (alLookup (baseSlugCounts questions) baseSlug).getD []
  if questionNumbers.length = 1 then baseSlug
  else baseSlug ++ '-' ::
    natToStr (idxOfN q.questionNumber (List.insertionSort (· ≤ ·) questionNumbers) + 1)

/-- `generateAllSlugs` (lines 70-100): the final `Map` from question
number to slug. -/
def generateAllSlugs (questions : List Question) : List (Nat × Str) :=
  questions.foldl (fun m q => alSet m q.questionNumber (slugAssigned questions q)) []

/-! ## seoGenerator.ts: keywords -/

/-- The fixed universal keyword list (lines 31-34). -/
def UNIVERSAL_KEYWORDS : List Str :=
  [strL "aptitude questions", strL "aptitude practice", strL "previous year questions",
   strL "quantitative aptitude", strL "logical reasoning questions",
   strL "competitive exam questions", strL "pyq"]

/-- An entry of `EXAM_KEYWORD_MAP`: either a flat list or a nested
sub-exam table (which includes its `_default` key). -/
inductive ExamKeywordEntry where
  | flat (ks : List Str)
  | nested (m : List (Str × List Str))
deriving DecidableEq

/-- `EXAM_KEYWORD_MAP` (lines 12-29). -/
def EXAM_KEYWORD_MAP (exam : Str) : Option ExamKeywordEntry :=
  if exam = strL "CAT" then some (.flat
    [strL "cat pyq", strL "cat previous year questions", strL "cat quant questions",
     strL "cat aptitude practice", strL "cat exam preparation"])
  else if exam = strL "Placements" then some (.flat
    [strL "placement aptitude questions", strL "campus placement practice",
     strL "placement papers", strL "aptitude for placements"])
  else if exam = strL "SSC" then some (.nested
    [(strL "CGL Tier 1", [strL "ssc cgl pyq", strL "ssc cgl tier 1 questions"]),
     (strL "CGL Tier 2", [strL "ssc cgl tier 2 questions", strL "ssc cgl tier 2 pyq"]),
     (strL "CHSL", [strL "ssc chsl questions", strL "ssc chsl pyq"]),
     (strL "_default", [strL "ssc aptitude questions", strL "ssc previous year papers"])])
  else if exam = strL "Banking" then some (.nested
    [(strL "IBPS PO", [strL "ibps po questions", strL "ibps po pyq"]),
     (strL "SBI PO", [strL "sbi po questions", strL "sbi po quant"]),
     (strL "RBI Grade B", [strL "rbi grade b questions"]),
     (strL "_default", [strL "bank exam aptitude", strL "bank pyq"])])
  else if exam = strL "Railways" then some (.flat
    [strL "railway exam aptitude", strL "rrb ntpc questions", strL "rrb pyq"])
  else if exam = strL "CUET" then some (.flat
    [strL "cuet gat questions", strL "cuet aptitude practice", strL "cuet pyq"])
  else none

/-- `getExamSpecificKeywords` (lines 36-43): nested tables are looked up
by `subExam || '_default'`, falling back to `_default`, then `[]`. -/
def getExamSpecificKeywords (exam : Str) (subExam : Option Str) : List Str :=
  match EXAM_KEYWORD_MAP exam with
  | none => []
  | some (.flat ks) => ks
  | some (.nested m) =>
    let key := if optTruthy subExam then subExam.getD [] else strL "_default"
    match alLookup m key with
    | some ks => ks
    | none => (alLookup m (strL "_default")).getD []

/-- One optional hierarchical keyword: lowercased, dropped by
`filter(Boolean)` when absent or empty. -/
def optKeyword (o : Option Str) : List Str :=
  match o with
  | none => []
  | some s => if (jsLower s).isEmpty then [] else [jsLower s]

/-- The hierarchical keyword list of `generateKeywords` (lines 51-60). -/
def hierarchicalKeywords (q : Question) : List Str :=
  optKeyword q.exam ++ optKeyword q.subExam ++ optKeyword q.sectionName ++
    optKeyword q.category ++ optKeyword q.topic ++ optKeyword (some q.type) ++
    optKeyword q.difficulty ++
    ((q.tags.getD []).map jsLower).filter (fun t => !t.isEmpty)

/-- The exam-specific keyword list of `generateKeywords` (line 49). -/
def examKeywordsOf (q : Question) : List Str :=
  if optTruthy q.exam then getExamSpecificKeywords (q.exam.getD []) q.subExam else []

/-- `[...new Set(l)]`: de-duplicate keeping first occurrences; `seen`
accumulates the members already emitted. -/
def dedupFirstAux {α : Type} [DecidableEq α] (seen : List α) : List α → List α
  | [] => []
  | x :: xs => if x ∈ seen then dedupFirstAux seen xs else x :: dedupFirstAux (x :: seen) xs

def dedupFirst {α : Type} [DecidableEq α] (l : List α) : List α := dedupFirstAux [] l

/-- `generateKeywords` (lines 48-64). -/
def generateKeywords (q : Question) : List Str :=
  dedupFirst (hierarchicalKeywords q ++ examKeywordsOf q ++ UNIVERSAL_KEYWORDS)

/-! ## seoGenerator.ts: generateTitle -/

/-- The shared tail of `generateTitle` for a chosen statement text:
compute the suffix, truncate the statement at a word boundary when it
would overflow, and hard-cap at 120 characters (lines 203-222). -/
def titleFromStatement (q : Question) (statementText : Str) : Str :=
  let examPart := optStr q.exam ++ [' '] ++ optStr q.difficulty
  let topicPart := optStr q.topic
  let suffix := strL " | " ++ examPart ++ strL " | " ++ topicPart
  let maxStatementLength : Int := 120 - (suffix.length : Int) - 4
  let truncatedStatement :=
    if maxStatementLength < (statementText.length : Int) then
      let t0 := statementText.take maxStatementLength.toNat
      let lastSpace := lastIndexOfChar t0 ' '
      (if 0 < lastSpace then t0.take lastSpace.toNat else t0) ++ strL "..."
    else statementText
  (truncatedStatement ++ suffix).take 120

/-- `generateTitle` (lines 198-223): note the substitution trigger is
`statement.startsWith('http')`, not `isImageUrl`. -/
def generateTitle (q : Question) : Str :=
  titleFromStatement q
    (if (strL "http").isPrefixOf q.statement then optStr q.topic ++ strL " Question"
     else q.statement)

/-! ## dataFetcher.ts: fetchAllQuestions -/

/-- One page response of `GET /api/questions?page=N&limit=1000`: a
successful body with a `questions` array, a non-success HTTP status, or
a body whose `questions` field is missing / not an array. -/
inductive PageResult where
  | ok (qs : List Question)
  | httpError (status : Nat)
  | malformed
deriving DecidableEq

/-- Outcome of one `fetchLogic` run.  `timeout` is an artifact of the
fuel-indexed embedding of the unbounded `while` loop; the theorems'
hypotheses supply enough fuel that it is never reached. -/
inductive FetchOutcome where
  | success (qs : List Question)
  | error
  | timeout
deriving DecidableEq

/-- JS truthiness of the optional `maxQuestions` argument (`undefined`
and `0` are falsy). -/
def maxTruthy : Option Nat → Bool
  | none => false
  | some n => decide (n ≠ 0)

def maxVal (m : Option Nat) : Nat := m.getD 0

/-- The `while (hasMore)` loop of `fetchLogic` (lines 85-119): fetch the
page, abort on a bad response, append, break on reaching the cap, and
continue while the page is full (`length === limit`, limit = 1000). -/
def fetchLoop (backend : Nat → PageResult) (maxQ : Option Nat) :
    Nat → Nat → List Question → FetchOutcome
  | 0, _, _ => .timeout
  | fuel + 1, page, acc =>
    match backend page with
    | .httpError _ => .error
    | .malformed => .error
    | .ok qs =>
      let acc2 := acc ++ qs
      if maxTruthy maxQ = true ∧ maxVal maxQ ≤ acc2.length then .success acc2
      else if qs.length = 1000 then fetchLoop backend maxQ fuel (page + 1) acc2
      else .success acc2

/-- `fetchLogic` (lines 73-131) without the cache write: run the loop
from page 1 and trim to the cap. -/
def fetchLogic (backend : Nat → PageResult) (maxQ : Option Nat) (fuel : Nat) : FetchOutcome :=
  match fetchLoop backend maxQ fuel 1 [] with
  | .success qs => .success (if maxTruthy maxQ then qs.take (maxVal maxQ) else qs)
  | r => r

/-- The module-level mutable state of dataFetcher.ts (lines 49-50):
the memoized full result and the in-flight promise, the latter modelled
by the outcome it settles to. -/
structure FetchState where
  questionsCache : Option (List Question)
  fetchPromise : Option FetchOutcome
deriving DecidableEq

def initialFetchState : FetchState := ⟨none, none⟩

/-- `fetchAllQuestions` (lines 60-143).  An uncapped call consults the
caches and records its outcome (on success the result is cached and the
promise stays resolved; on error the promise is reset to `null` and the
cache is untouched; a never-settling loop leaves the promise pending).
A capped (truthy) call bypasses and never updates the state. -/
def fetchAllQuestions (backend : Nat → PageResult) (maxQ : Option Nat)
    (st : FetchState) (fuel : Nat) : FetchOutcome × FetchState :=
  if st.questionsCache.isSome = true ∧ maxTruthy maxQ = false then
    (.success (st.questionsCache.getD []), st)
  else if st.fetchPromise.isSome = true ∧ maxTruthy maxQ = false then
    (st.fetchPromise.getD .error, st)
  else
    let r := fetchLogic backend maxQ fuel
    if maxTruthy maxQ = false then
      match r with
      | .success qs => (r, ⟨some qs, some r⟩)
      | .error => (r, ⟨st.questionsCache, none⟩)
      | .timeout => (r, ⟨st.questionsCache, some r⟩)
    else (r, st)

/-- The length of a successful outcome. -/
def outcomeLength : FetchOutcome → Option Nat
  | .success qs => some qs.length
  | _ => none

/-! ## dataFetcher.ts: buildQuestionIndexes -/

/-- The five lookup tables (lines 148-200). -/
structure Indexes where
  byTopic : List (Str × List Question)
  byCategory : List (Str × List Question)
  byExam : List (Str × List Question)
  byExamAndTopic : List (Str × List Question)
  byQuestionNumber : List (Nat × Question)
deriving DecidableEq

/-- The loop body of `buildQuestionIndexes` for one question. -/
def indexStep (ix : Indexes) (q : Question) : Indexes :=
  { byQuestionNumber := alSet ix.byQuestionNumber q.questionNumber q
    byTopic := if optTruthy q.topic then alPush ix.byTopic (q.topic.getD []) q else ix.byTopic
    byCategory := if optTruthy q.category
      then alPush ix.byCategory (q.category.getD []) q else ix.byCategory
    byExam := if optTruthy q.exam then alPush ix.byExam (q.exam.getD []) q else ix.byExam
    byExamAndTopic := if optTruthy q.exam && optTruthy q.topic
      then alPush ix.byExamAndTopic (q.exam.getD [] ++ strL "::" ++ q.topic.getD []) q
      else ix.byExamAndTopic }

/-- `buildQuestionIndexes` (lines 148-200): one linear pass. -/
def buildQuestionIndexes (questions : List Question) : Indexes :=
  questions.foldl indexStep ⟨[], [], [], [], []⟩

/-! ## sitemap.xml.ts: the in-place sort of the question list -/

/-- Modelled from the spec: `new Date(s).getTime()` of the JS `Date`
builtin (external to this repository) on equal-format ISO
`YYYY-MM-DD...` strings is strictly monotone in lexicographic order;
a base-2048 big-endian fold over the code points realizes that order. -/
def dateScore (s : Str) : Int :=
  s.foldl (fun a c => 2048 * a + (c.toNat : Int)) 0

/-- The comparator `(a, b) => new Date(b.updatedAt).getTime() - new
Date(a.updatedAt).getTime()` orders by descending date. -/
def updatedAtDesc (a b : Question) : Prop :=
  dateScore b.updatedAt ≤ dateScore a.updatedAt

instance : DecidableRel updatedAtDesc := fun a b =>
  inferInstanceAs (Decidable (dateScore b.updatedAt ≤ dateScore a.updatedAt))

/-- The contents of the `questions` array object after the sitemap `GET`
handler runs: `questions.sort(...)` (sitemap.xml.ts line 123) sorts the
array **in place**, so the array handed over by `fetchAllQuestions`
(aliasing the module-level `questionsCache`) ends up reordered by
descending `updatedAt`. -/
def questionsAfterSitemapGET (questions : List Question) : List Question :=
  List.insertionSort updatedAtDesc questions

/-! ## Concrete inputs used by witnesses and counterexamples -/

/-- A blank question record to build concrete examples from. -/
def baseQ : Question :=
  { questionNumber := 0, statement := [], type := strL "MCQ", exam := none,
    subExam := none, sectionName := none, category := none, topic := none,
    difficulty := none, tags := none, updatedAt := [], createdAt := [] }

/-- The spec §8 example question. -/
def qEx : Question := { baseQ with
  questionNumber := 7,
  statement := strL "Find HCF of 12 and 18",
  exam := some (strL "SSC"),
  topic := some (strL "Number System"),
  type := strL "Integer",
  difficulty := some (strL "Easy") }

/-- A statement that the §4.1 classifier flags as an image (file
extension match) but that does not start with `http`. -/
def qPng : Question := { baseQ with
  questionNumber := 5,
  statement := strL "chart.png",
  exam := some (strL "CAT"),
  topic := some (strL "Algebra"),
  difficulty := some (strL "Easy") }

/-- A statement that starts with `http`. -/
def qHttp : Question := { baseQ with
  questionNumber := 6,
  statement := strL "https://img.example.com/x.png",
  exam := some (strL "CAT"),
  topic := some (strL "Algebra"),
  difficulty := some (strL "Easy") }

/-- All three slug source fields present but consisting solely of
non-alphanumeric symbols: sanitization removes every character. -/
def qSym : Question := { baseQ with
  questionNumber := 42,
  statement := strL "####",
  exam := some (strL "$$$"),
  topic := some (strL "%%%") }

/-- Two questions out of descending-`updatedAt` order. -/
def qOld : Question := { baseQ with questionNumber := 1, updatedAt := strL "2024-01-01" }

def qNew : Question := { baseQ with questionNumber := 2, updatedAt := strL "2024-05-05" }

/-- Two questions sharing statement, exam and topic (spec §8's collision
example), with question numbers 3 and 9. -/
def qDup3 : Question := { baseQ with
  questionNumber := 3,
  statement := strL "What is 2+2?",
  exam := some (strL "CAT"),
  topic := some (strL "Arithmetic") }

def qDup9 : Question := { qDup3 with questionNumber := 9 }

/-- A record used to populate concrete backend pages. -/
def qPage : Question := { baseQ with questionNumber := 100 }

/-- A backend whose every page holds 1000 questions. -/
def fullBackend : Nat → PageResult := fun _ => .ok (List.replicate 1000 qPage)

/-- A backend whose first page is full and whose second request fails
with HTTP 500. -/
def failingBackend : Nat → PageResult := fun p =>
  if p = 1 then .ok (List.replicate 1000 qPage) else .httpError 500

/-- The questions of the batch sharing a given base slug, by number and
in input order (the contents of pass 1's `baseSlugCounts` bucket). -/
def collidingNumbers (qs : List Question) (b : Str) : List Nat :=
  (qs.filter (fun q => decide (buildBaseSlug q = b))).map (fun q => q.questionNumber)

/-- Adjacent characters are not both hyphens (no `--` run). -/
def adjOk (a b : Char) : Prop := ¬(a = '-' ∧ b = '-')

/-- The conditional-bucket update step shared by the index folds: push
the element into the bucket of its key, when it has one. -/
def pushStep {α K V : Type} [DecidableEq K] (key : α → Option K) (val : α → V)
    (m : List (K × List V)) (a : α) : List (K × List V) :=
  match key a with
  | some k => alPush m k (val a)
  | none => m

/-! # Theorems -/

/-! ## C8: generateTitle is hard-capped at 120 characters -/

/-- C8: for every question, the string returned by `generateTitle` has
length at most 120 characters (the final `.substring(0, 120)`). -/
theorem generateTitle_length_le (q : Question) : (generateTitle q).length ≤ 120 := by
  unfold generateTitle titleFromStatement
  simp [List.length_take]

/-! ## C10: buildBaseSlug never returns the empty string -/

theorem questionFallback_ne_nil (n : Nat) : questionFallback n ≠ [] := by
  simp [questionFallback, strL]

/-- C10: for every question the slug produced by `buildBaseSlug` (and by
`generateQuickSlug`) is non-empty, and whenever sanitization removes
every character of the joined slug the function falls back to
`question-<questionNumber>`. -/
theorem buildBaseSlug_ne_nil (q : Question)
    (hempty : sanitizeSlug (slugTruncated q) = []) :
    buildBaseSlug q ≠ [] ∧ generateQuickSlug q ≠ [] ∧
      (fieldsTruthy q = true → buildBaseSlug q = questionFallback q.questionNumber) := by
  have hb : buildBaseSlug q ≠ [] := by
    unfold buildBaseSlug
    split
    · exact questionFallback_ne_nil _
    · split
      · exact questionFallback_ne_nil _
      · rename_i h
        simpa [List.isEmpty_iff] using h
  refine ⟨hb, ?_, ?_⟩
  · unfold generateQuickSlug
    split
    · exact hb
    · exact questionFallback_ne_nil _
  · intro htruthy
    unfold buildBaseSlug
    rw [if_neg (by simp [htruthy]), if_pos (by simp [hempty, List.isEmpty_iff])]

/-! ## C5: which classifier gates the title substitution -/

/-- C5 counterexample: `chart.png` is classified as an image reference
by the §4.1 classifier (`isImageUrl`), yet `generateTitle` keeps the raw
statement text as the statement portion of the title instead of the
synthesized `Algebra Question`. -/
theorem generateTitle_ignores_isImageUrl :
    isImageUrl qPng.statement = true ∧
      generateTitle qPng = strL "chart.png | CAT Easy | Algebra" ∧
      generateTitle qPng ≠
        titleFromStatement qPng (optStr qPng.topic ++ strL " Question") := by
  refine ⟨by decide, by decide, by decide⟩

/-- C5 amended: `generateTitle` substitutes the synthesized
`<topic> Question` string exactly when the statement starts with `http`;
otherwise (even for statements the §4.1 classifier flags as images via
a file extension or hosting-domain substring) the raw statement text is
used. -/
theorem generateTitle_http_substitution (q : Question) :
    ((strL "http").isPrefixOf q.statement = true →
      generateTitle q = titleFromStatement q (optStr q.topic ++ strL " Question")) ∧
    ((strL "http").isPrefixOf q.statement = false →
      generateTitle q = titleFromStatement q q.statement) := by
  constructor
  · intro h
    simp [generateTitle, h]
  · intro h
    simp [generateTitle, h]

/-- C5 amended, witnessed at a concrete `http`-prefixed statement. -/
theorem generateTitle_http_substitution_witness :
    (strL "http").isPrefixOf qHttp.statement = true ∧
      generateTitle qHttp = titleFromStatement qHttp (optStr qHttp.topic ++ strL " Question") :=
  ⟨by decide, (generateTitle_http_substitution qHttp).1 (by decide)⟩

/-! ## C4: the sitemap GET reorders the fetched question list in place -/

/-- C4 (code bug): with the cached question list `[qOld, qNew]` in
ascending `updatedAt` order, the sitemap `GET` handler's in-place
`questions.sort(...)` leaves the array object holding `[qNew, qOld]`:
the list handed over by `fetchAllQuestions` is *not* left unchanged. -/
theorem sitemapGET_mutates_question_order :
    questionsAfterSitemapGET [qOld, qNew] = [qNew, qOld] ∧
      questionsAfterSitemapGET [qOld, qNew] ≠ [qOld, qNew] := by
  refine ⟨by decide, by decide⟩

/-! ## C7: generateKeywords is duplicate-free and ordered -/

theorem dedupFirstAux_congr {α : Type} [DecidableEq α] (l : List α) :
    ∀ s1 s2 : List α, (∀ x, x ∈ s1 ↔ x ∈ s2) →
      dedupFirstAux s1 l = dedupFirstAux s2 l := by
  induction l with
  | nil => intro s1 s2 _; rfl
  | cons x xs ih =>
    intro s1 s2 hmem
    by_cases hx : x ∈ s1
    · rw [dedupFirstAux, dedupFirstAux, if_pos hx, if_pos ((hmem x).1 hx)]
      exact ih s1 s2 hmem
    · rw [dedupFirstAux, dedupFirstAux, if_neg hx, if_neg (fun h => hx ((hmem x).2 h))]
      refine congrArg _ (ih _ _ ?_)
      intro y
      simp [hmem y]

theorem dedupFirstAux_append {α : Type} [DecidableEq α] (a : List α) :
    ∀ (s b : List α),
      dedupFirstAux s (a ++ b) = dedupFirstAux s a ++ dedupFirstAux (a ++ s) b := by
  induction a with
  | nil => intro s b; rfl
  | cons x xs ih =>
    intro s b
    by_cases hx : x ∈ s
    · rw [List.cons_append, dedupFirstAux, if_pos hx, dedupFirstAux, if_pos hx, ih]
      refine congrArg _ (dedupFirstAux_congr _ _ _ ?_)
      intro y
      simp only [List.cons_append, List.mem_cons, List.mem_append]
      constructor
      · intro h; tauto
      · rintro (rfl | h | h) <;> tauto
    · rw [List.cons_append, dedupFirstAux, if_neg hx, dedupFirstAux, if_neg hx, ih]
      rw [List.cons_append]
      refine congrArg _ (congrArg _ (dedupFirstAux_congr _ _ _ ?_))
      intro y
      simp only [List.cons_append, List.mem_cons, List.mem_append]
      tauto

theorem dedupFirstAux_filter {α : Type} [DecidableEq α] (a : List α) :
    ∀ (b s : List α),
      dedupFirstAux (a ++ s) b = (dedupFirstAux s b).filter (fun x => !decide (x ∈ a)) := by
  intro b
  induction b with
  | nil => intro s; rfl
  | cons x bs ih =>
    intro s
    by_cases hxa : x ∈ a
    · rw [dedupFirstAux, if_pos (List.mem_append.2 (Or.inl hxa))]
      by_cases hxs : x ∈ s
      · rw [dedupFirstAux, if_pos hxs, ih]
      · rw [dedupFirstAux, if_neg hxs, List.filter_cons]
        have hpx : (!decide (x ∈ a)) = false := by simp [hxa]
        rw [hpx, if_neg (by simp)]
        rw [← ih (x :: s)]
        refine dedupFirstAux_congr _ _ _ ?_
        intro y
        simp only [List.mem_append, List.mem_cons]
        constructor
        · rintro (h | h)
          · exact Or.inl h
          · exact Or.inr (Or.inr h)
        · rintro (h | rfl | h)
          · exact Or.inl h
          · exact Or.inl hxa
          · exact Or.inr h
    · by_cases hxs : x ∈ s
      · rw [dedupFirstAux, if_pos (List.mem_append.2 (Or.inr hxs)), dedupFirstAux,
          if_pos hxs, ih]
      · rw [dedupFirstAux, if_neg (by simp [hxa, hxs]), dedupFirstAux, if_neg hxs,
          List.filter_cons]
        have hpx : (!decide (x ∈ a)) = true := by simp [hxa]
        rw [hpx, if_pos rfl]
        refine congrArg _ ?_
        rw [← ih (x :: s)]
        refine dedupFirstAux_congr _ _ _ ?_
        intro y
        simp only [List.mem_append, List.mem_cons]
        tauto

theorem dedupFirstAux_nodup {α : Type} [DecidableEq α] (l : List α) :
    ∀ s : List α, (dedupFirstAux s l).Nodup ∧ ∀ x ∈ dedupFirstAux s l, x ∉ s := by
  induction l with
  | nil => intro s; exact ⟨List.nodup_nil, by simp [dedupFirstAux]⟩
  | cons x xs ih =>
    intro s
    by_cases hx : x ∈ s
    · rw [dedupFirstAux, if_pos hx]
      exact ih s
    · rw [dedupFirstAux, if_neg hx]
      obtain ⟨hnd, hnotin⟩ := ih (x :: s)
      refine ⟨List.nodup_cons.2 ⟨fun hmem => (hnotin x hmem) (List.mem_cons_self x s), hnd⟩, ?_⟩
      intro y hy
      rcases List.mem_cons.1 hy with rfl | hy'
      · exact hx
      · exact fun hys => (hnotin y hy') (List.mem_cons_of_mem _ hys)

/-- C7: for every question, `generateKeywords` returns a duplicate-free
list whose order places the (deduplicated) hierarchical keywords first,
then the exam-specific keywords not already present, then the universal
keywords not already present. -/
theorem generateKeywords_nodup_ordered (q : Question) :
    (generateKeywords q).Nodup ∧
      generateKeywords q =
        dedupFirst (hierarchicalKeywords q) ++
          (dedupFirst (examKeywordsOf q)).filter
            (fun x => !decide (x ∈ hierarchicalKeywords q)) ++
          (dedupFirst UNIVERSAL_KEYWORDS).filter
            (fun x => !decide (x ∈ hierarchicalKeywords q) && !decide (x ∈ examKeywordsOf q)) := by
  constructor
  · exact (dedupFirstAux_nodup _ _).1
  · unfold generateKeywords dedupFirst
    rw [dedupFirstAux_append, dedupFirstAux_append]
    rw [dedupFirstAux_filter (hierarchicalKeywords q) (examKeywordsOf q) []]
    rw [dedupFirstAux_filter (hierarchicalKeywords q ++ examKeywordsOf q) UNIVERSAL_KEYWORDS []]
    refine congrArg₂ (· ++ ·) ?_ ?_
    · refine congrArg₂ (· ++ ·) rfl ?_
      refine List.filter_congr ?_
      intro y _
      exact congrArg Bool.not (decide_eq_decide.2 Iff.rfl)
    · refine List.filter_congr ?_
      intro y _
      by_cases h2 : y ∈ hierarchicalKeywords q <;> by_cases h3 : y ∈ examKeywordsOf q <;>
        simp [h2, h3]

/-! ## Association-list lemmas -/

theorem alLookup_alSet_self {K V : Type} [DecidableEq K] (m : List (K × V)) (k : K) (v : V) :
    alLookup (alSet m k v) k = some v := by
  induction m with
  | nil => simp [alSet, alLookup]
  | cons p rest ih =>
    obtain ⟨a, b⟩ := p
    simp only [alSet]
    by_cases h : a = k
    · rw [if_pos h]
      simp only [alLookup]
      rw [if_pos h]
    · rw [if_neg h]
      simp only [alLookup]
      rw [if_neg h]
      exact ih

theorem alLookup_alSet_ne {K V : Type} [DecidableEq K] (m : List (K × V)) (k k' : K) (v : V)
    (hne : k' ≠ k) : alLookup (alSet m k v) k' = alLookup m k' := by
  induction m with
  | nil =>
    simp only [alSet, alLookup]
    rw [if_neg (fun h => hne h.symm)]
  | cons p rest ih =>
    obtain ⟨a, b⟩ := p
    simp only [alSet]
    by_cases h : a = k
    · rw [if_pos h]
      simp only [alLookup]
      rw [if_neg (fun hh => hne (hh.symm.trans h)), if_neg (fun hh => hne (hh.symm.trans h))]
    · rw [if_neg h]
      simp only [alLookup]
      by_cases h2 : a = k'
      · rw [if_pos h2, if_pos h2]
      · rw [if_neg h2, if_neg h2]
        exact ih

theorem alLookup_alPush {K V : Type} [DecidableEq K] (m : List (K × List V)) (k k' : K)
    (v : V) :
    alLookup (alPush m k v) k' =
      if k' = k then some ((alLookup m k).getD [] ++ [v]) else alLookup m k' := by
  unfold alPush
  by_cases hk : k' = k
  · subst hk
    cases h : alLookup m k' <;> simp [h, alLookup_alSet_self]
  · cases h : alLookup m k <;> simp [h, hk, alLookup_alSet_ne _ _ _ _ hk]

theorem getLast?_cons_eq {α : Type} (a : α) (l : List α) :
    (a :: l).getLast? = some ((l.getLast?).getD a) := by
  induction l generalizing a with
  | nil => rfl
  | cons b t ih =>
    rw [List.getLast?_cons_cons, ih b]
    cases h : (b :: t).getLast? with
    | none => simp [ih b] at h
    | some c =>
      rw [ih b] at h
      simp at h
      simp [h]

/-- Lookup characterization of a fold of conditional `alPush` updates:
the bucket at `k` collects, in input order, exactly the elements whose
key is `k`. -/
theorem alPush_foldl_lookup {α K V : Type} [DecidableEq K]
    (key : α → Option K) (val : α → V) :
    ∀ (l : List α) (m : List (K × List V)) (k : K),
      alLookup (l.foldl (pushStep key val) m) k =
        match alLookup m k with
        | some b => some (b ++ (l.filter (fun a => key a = some k)).map val)
        | none =>
          if (l.filter (fun a => key a = some k)).isEmpty then none
          else some ((l.filter (fun a => key a = some k)).map val) := by
  intro l
  induction l with
  | nil =>
    intro m k
    cases h : alLookup m k <;> simp [h]
  | cons a t ih =>
    intro m k
    rw [List.foldl_cons]
    cases hka : key a with
    | none =>
      rw [show pushStep key val m a = m from by unfold pushStep; rw [hka]]
      rw [ih m k]
      have hfilter : (a :: t).filter (fun a => decide (key a = some k)) =
          t.filter (fun a => decide (key a = some k)) := by
        rw [List.filter_cons, if_neg (by simp [hka])]
      rw [hfilter]
    | some k'' =>
      by_cases hk : k'' = k
      · subst hk
        rw [show pushStep key val m a = alPush m k'' (val a) from by unfold pushStep; rw [hka]]
        rw [ih (alPush m k'' (val a)) k'']
        rw [alLookup_alPush, if_pos rfl]
        have hfilter : (a :: t).filter (fun a => decide (key a = some k'')) =
            a :: t.filter (fun a => decide (key a = some k'')) := by
          rw [List.filter_cons, if_pos (by simp [hka])]
        rw [hfilter]
        cases h : alLookup m k'' <;> simp [h]
      · rw [show pushStep key val m a = alPush m k'' (val a) from by unfold pushStep; rw [hka]]
        rw [ih (alPush m k'' (val a)) k]
        rw [alLookup_alPush, if_neg (fun h => hk h.symm)]
        have hfilter : (a :: t).filter (fun a => decide (key a = some k)) =
            t.filter (fun a => decide (key a = some k)) := by
          rw [List.filter_cons, if_neg (by simp [hka, hk])]
        rw [hfilter]

/-- Lookup characterization of a fold of `alSet` updates: the entry at
`k` is the value of the last element with key `k`. -/
theorem alSet_foldl_lookup {α K V : Type} [DecidableEq K]
    (key : α → K) (val : α → V) :
    ∀ (l : List α) (m : List (K × V)) (k : K),
      alLookup (l.foldl (fun m a => alSet m (key a) (val a)) m) k =
        match (l.filter (fun a => key a = k)).getLast? with
        | some a => some (val a)
        | none => alLookup m k := by
  intro l
  induction l with
  | nil => intro m k; rfl
  | cons a t ih =>
    intro m k
    rw [List.foldl_cons, ih (alSet m (key a) (val a)) k]
    by_cases hk : key a = k
    · have hfilter : (a :: t).filter (fun a => decide (key a = k)) =
          a :: t.filter (fun a => decide (key a = k)) := by
        rw [List.filter_cons, if_pos (by simp [hk])]
      rw [hfilter, getLast?_cons_eq]
      cases h : (t.filter (fun a => decide (key a = k))).getLast? with
      | none => simp [h, hk, alLookup_alSet_self]
      | some b => simp [h]
    · have hfilter : (a :: t).filter (fun a => decide (key a = k)) =
          t.filter (fun a => decide (key a = k)) := by
        rw [List.filter_cons, if_neg (by simp [hk])]
      rw [hfilter]
      cases h : (t.filter (fun a => decide (key a = k))).getLast? with
      | none => simp [h, alLookup_alSet_ne _ _ _ _ (fun h2 => hk h2.symm)]
      | some b => simp [h]

/-! ## C9: buildQuestionIndexes is deterministic with characterized buckets -/

/-- The single `for` loop of `buildQuestionIndexes` updates the five
tables independently: each projection is its own fold. -/
theorem foldl_indexStep_proj :
    ∀ (qs : List Question) (ix : Indexes),
      qs.foldl indexStep ix =
        { byTopic := qs.foldl (pushStep
            (fun q => if optTruthy q.topic then some (q.topic.getD []) else none)
            (fun q => q)) ix.byTopic
          byCategory := qs.foldl (pushStep
            (fun q => if optTruthy q.category then some (q.category.getD []) else none)
            (fun q => q)) ix.byCategory
          byExam := qs.foldl (pushStep
            (fun q => if optTruthy q.exam then some (q.exam.getD []) else none)
            (fun q => q)) ix.byExam
          byExamAndTopic := qs.foldl (pushStep
            (fun q => if optTruthy q.exam && optTruthy q.topic
                then some (q.exam.getD [] ++ strL "::" ++ q.topic.getD []) else none)
            (fun q => q)) ix.byExamAndTopic
          byQuestionNumber := qs.foldl (fun m q =>
            alSet m q.questionNumber q) ix.byQuestionNumber } := by
  intro qs
  induction qs with
  | nil => intro ix; rfl
  | cons q t ih =>
    intro ix
    have h1 : (indexStep ix q).byTopic =
        pushStep (fun q => if optTruthy q.topic then some (q.topic.getD []) else none)
          (fun q => q) ix.byTopic q := by
      unfold indexStep pushStep
      by_cases h : optTruthy q.topic = true <;> simp [h]
    have h2 : (indexStep ix q).byCategory =
        pushStep (fun q => if optTruthy q.category then some (q.category.getD []) else none)
          (fun q => q) ix.byCategory q := by
      unfold indexStep pushStep
      by_cases h : optTruthy q.category = true <;> simp [h]
    have h3 : (indexStep ix q).byExam =
        pushStep (fun q => if optTruthy q.exam then some (q.exam.getD []) else none)
          (fun q => q) ix.byExam q := by
      unfold indexStep pushStep
      by_cases h : optTruthy q.exam = true <;> simp [h]
    have h4 : (indexStep ix q).byExamAndTopic =
        pushStep (fun q => if optTruthy q.exam && optTruthy q.topic
            then some (q.exam.getD [] ++ strL "::" ++ q.topic.getD []) else none)
          (fun q => q) ix.byExamAndTopic q := by
      unfold indexStep pushStep
      by_cases h : (optTruthy q.exam && optTruthy q.topic) = true <;> simp [h]
    have h5 : (indexStep ix q).byQuestionNumber =
        alSet ix.byQuestionNumber q.questionNumber q := by
      unfold indexStep
      rfl
    rw [List.foldl_cons, ih (indexStep ix q)]
    simp only [List.foldl_cons]
    rw [h1, h2, h3, h4, h5]

theorem byTopic_fold (qs : List Question) :
    (buildQuestionIndexes qs).byTopic =
      qs.foldl (pushStep
        (fun q => if optTruthy q.topic then some (q.topic.getD []) else none)
        (fun q => q)) [] := by
  rw [show buildQuestionIndexes qs = qs.foldl indexStep (Indexes.mk [] [] [] [] []) from rfl,
    foldl_indexStep_proj]

theorem byCategory_fold (qs : List Question) :
    (buildQuestionIndexes qs).byCategory =
      qs.foldl (pushStep
        (fun q => if optTruthy q.category then some (q.category.getD []) else none)
        (fun q => q)) [] := by
  rw [show buildQuestionIndexes qs = qs.foldl indexStep (Indexes.mk [] [] [] [] []) from rfl,
    foldl_indexStep_proj]

theorem byExam_fold (qs : List Question) :
    (buildQuestionIndexes qs).byExam =
      qs.foldl (pushStep
        (fun q => if optTruthy q.exam then some (q.exam.getD []) else none)
        (fun q => q)) [] := by
  rw [show buildQuestionIndexes qs = qs.foldl indexStep (Indexes.mk [] [] [] [] []) from rfl,
    foldl_indexStep_proj]

theorem byExamAndTopic_fold (qs : List Question) :
    (buildQuestionIndexes qs).byExamAndTopic =
      qs.foldl (pushStep
        (fun q => if optTruthy q.exam && optTruthy q.topic
            then some (q.exam.getD [] ++ strL "::" ++ q.topic.getD []) else none)
        (fun q => q)) [] := by
  rw [show buildQuestionIndexes qs = qs.foldl indexStep (Indexes.mk [] [] [] [] []) from rfl,
    foldl_indexStep_proj]

theorem byQuestionNumber_fold (qs : List Question) :
    (buildQuestionIndexes qs).byQuestionNumber =
      qs.foldl (fun m q => alSet m q.questionNumber q) [] := by
  rw [show buildQuestionIndexes qs = qs.foldl indexStep (Indexes.mk [] [] [] [] []) from rfl,
    foldl_indexStep_proj]

/-- C9: `buildQuestionIndexes` is a pure function of its input — two
applications to the same list give identical tables — and every bucket
is fully characterized by the input alone: each key's bucket collects,
in input order, exactly the questions carrying that (truthy) key, and
`byQuestionNumber` maps each number to the last question carrying it. -/
theorem buildQuestionIndexes_deterministic (qs : List Question) :
    buildQuestionIndexes qs = buildQuestionIndexes qs ∧
    (∀ t, alLookup (buildQuestionIndexes qs).byTopic t =
      (if ((qs.filter (fun q => optTruthy q.topic && decide (q.topic.getD [] = t))).isEmpty)
        then none
        else some (qs.filter (fun q => optTruthy q.topic && decide (q.topic.getD [] = t))))) ∧
    (∀ c, alLookup (buildQuestionIndexes qs).byCategory c =
      (if ((qs.filter (fun q => optTruthy q.category && decide (q.category.getD [] = c))).isEmpty)
        then none
        else some (qs.filter (fun q => optTruthy q.category && decide (q.category.getD [] = c))))) ∧
    (∀ e, alLookup (buildQuestionIndexes qs).byExam e =
      (if ((qs.filter (fun q => optTruthy q.exam && decide (q.exam.getD [] = e))).isEmpty)
        then none
        else some (qs.filter (fun q => optTruthy q.exam && decide (q.exam.getD [] = e))))) ∧
    (∀ k, alLookup (buildQuestionIndexes qs).byExamAndTopic k =
      (if ((qs.filter (fun q => optTruthy q.exam && optTruthy q.topic &&
            decide (q.exam.getD [] ++ strL "::" ++ q.topic.getD [] = k))).isEmpty)
        then none
        else some (qs.filter (fun q => optTruthy q.exam && optTruthy q.topic &&
          decide (q.exam.getD [] ++ strL "::" ++ q.topic.getD [] = k))))) ∧
    (∀ n, alLookup (buildQuestionIndexes qs).byQuestionNumber n =
      (qs.filter (fun q => decide (q.questionNumber = n))).getLast?) := by
  refine ⟨rfl, ?_, ?_, ?_, ?_, ?_⟩
  · intro t
    rw [byTopic_fold,
      alPush_foldl_lookup (fun q => if optTruthy q.topic then some (q.topic.getD []) else none)
        (fun q => q) qs [] t]
    have hfc : qs.filter
        (fun q => decide ((if optTruthy q.topic then some (q.topic.getD []) else none) = some t)) =
        qs.filter (fun q => optTruthy q.topic && decide (q.topic.getD [] = t)) := by
      refine List.filter_congr ?_
      intro q _
      by_cases h : optTruthy q.topic = true <;> simp [h]
    rw [show alLookup ([] : List (Str × List Question)) t = none from rfl, hfc]
    by_cases h : (qs.filter (fun q => optTruthy q.topic && decide (q.topic.getD [] = t))).isEmpty
      <;> simp [h]
  · intro c
    rw [byCategory_fold,
      alPush_foldl_lookup
        (fun q => if optTruthy q.category then some (q.category.getD []) else none)
        (fun q => q) qs [] c]
    have hfc : qs.filter
        (fun q => decide
          ((if optTruthy q.category then some (q.category.getD []) else none) = some c)) =
        qs.filter (fun q => optTruthy q.category && decide (q.category.getD [] = c)) := by
      refine List.filter_congr ?_
      intro q _
      by_cases h : optTruthy q.category = true <;> simp [h]
    rw [show alLookup ([] : List (Str × List Question)) c = none from rfl, hfc]
    by_cases h : (qs.filter
        (fun q => optTruthy q.category && decide (q.category.getD [] = c))).isEmpty <;> simp [h]
  · intro e
    rw [byExam_fold,
      alPush_foldl_lookup (fun q => if optTruthy q.exam then some (q.exam.getD []) else none)
        (fun q => q) qs [] e]
    have hfc : qs.filter
        (fun q => decide ((if optTruthy q.exam then some (q.exam.getD []) else none) = some e)) =
        qs.filter (fun q => optTruthy q.exam && decide (q.exam.getD [] = e)) := by
      refine List.filter_congr ?_
      intro q _
      by_cases h : optTruthy q.exam = true <;> simp [h]
    rw [show alLookup ([] : List (Str × List Question)) e = none from rfl, hfc]
    by_cases h : (qs.filter (fun q => optTruthy q.exam && decide (q.exam.getD [] = e))).isEmpty
      <;> simp [h]
  · intro k
    rw [byExamAndTopic_fold,
      alPush_foldl_lookup (fun q =>
          if optTruthy q.exam && optTruthy q.topic
          then some (q.exam.getD [] ++ strL "::" ++ q.topic.getD []) else none)
        (fun q => q) qs [] k]
    have hfc : qs.filter
        (fun q => decide ((if optTruthy q.exam && optTruthy q.topic
          then some (q.exam.getD [] ++ strL "::" ++ q.topic.getD []) else none) = some k)) =
        qs.filter (fun q => optTruthy q.exam && optTruthy q.topic &&
          decide (q.exam.getD [] ++ strL "::" ++ q.topic.getD [] = k)) := by
      refine List.filter_congr ?_
      intro q _
      by_cases h : (optTruthy q.exam && optTruthy q.topic) = true <;> simp [h]
    rw [show alLookup ([] : List (Str × List Question)) k = none from rfl, hfc]
    by_cases h : (qs.filter (fun q => optTruthy q.exam && optTruthy q.topic &&
        decide (q.exam.getD [] ++ strL "::" ++ q.topic.getD [] = k))).isEmpty <;> simp [h]
  · intro n
    rw [byQuestionNumber_fold,
      alSet_foldl_lookup (fun q => q.questionNumber) (fun q => q) qs [] n]
    cases h : (qs.filter (fun q => decide (q.questionNumber = n))).getLast? <;>
      simp [h, alLookup]

/-- C10 witness: a question whose statement, exam and topic are all
present but consist solely of symbols; sanitization empties the slug and
the fallback `question-42` is returned. -/
theorem buildBaseSlug_ne_nil_witness :
    sanitizeSlug (slugTruncated qSym) = [] ∧ fieldsTruthy qSym = true ∧
      buildBaseSlug qSym ≠ [] ∧ buildBaseSlug qSym = questionFallback 42 :=
  ⟨by decide, by decide, (buildBaseSlug_ne_nil qSym (by decide)).1,
    (buildBaseSlug_ne_nil qSym (by decide)).2.2 (by decide)⟩

/-! ## C2: a capped fetch returns exactly the cap and bypasses the caches -/

/-- A truthy `maxQuestions` short-circuits both cache branches and never
writes the state back. -/
theorem fetchAllQuestions_capped (backend : Nat → PageResult) (m : Option Nat)
    (st : FetchState) (fuel : Nat) (hm : maxTruthy m = true) :
    fetchAllQuestions backend m st fuel = (fetchLogic backend m fuel, st) := by
  unfold fetchAllQuestions
  rw [if_neg (by simp [hm]), if_neg (by simp [hm]), if_neg (by simp [hm])]

/-- C2: against a backend whose every page holds 1000 questions,
`fetchAllQuestions` with `maxQuestions = 50` returns exactly 50 records,
leaves the module state untouched, and its result does not depend on the
state (it neither reads nor writes the unlimited-fetch caches). -/
theorem fetch_capped_50 (backend : Nat → PageResult)
    (hpages : ∀ p, ∃ qs, backend p = .ok qs ∧ qs.length = 1000)
    (st : FetchState) (fuel : Nat) (hfuel : 1 ≤ fuel) :
    outcomeLength (fetchAllQuestions backend (some 50) st fuel).1 = some 50 ∧
    (fetchAllQuestions backend (some 50) st fuel).2 = st ∧
    (fetchAllQuestions backend (some 50) st fuel).1 =
      (fetchAllQuestions backend (some 50) initialFetchState fuel).1 := by
  have hm : maxTruthy (some 50) = true := by decide
  rw [fetchAllQuestions_capped backend (some 50) st fuel hm,
    fetchAllQuestions_capped backend (some 50) initialFetchState fuel hm]
  refine ⟨?_, rfl, rfl⟩
  obtain ⟨f, rfl⟩ : ∃ f, fuel = f + 1 := ⟨fuel - 1, by omega⟩
  obtain ⟨qs1, hb1, hlen1⟩ := hpages 1
  unfold fetchLogic
  have hloop : fetchLoop backend (some 50) (f + 1) 1 [] = .success ([] ++ qs1) := by
    unfold fetchLoop
    rw [hb1]
    dsimp only
    rw [if_pos ⟨hm, by simp [maxVal, hlen1]⟩]
  rw [hloop]
  simp [outcomeLength, hm, maxVal, hlen1]

/-- C2 witness: the concrete all-full-pages backend, starting from the
empty state with fuel 1. -/
theorem fetch_capped_50_witness :
    outcomeLength (fetchAllQuestions fullBackend (some 50) initialFetchState 1).1 = some 50 ∧
    (fetchAllQuestions fullBackend (some 50) initialFetchState 1).2 = initialFetchState :=
  ⟨(fetch_capped_50 fullBackend
      (fun _ => ⟨List.replicate 1000 qPage, rfl, by simp⟩) initialFetchState 1 (by decide)).1,
   (fetch_capped_50 fullBackend
      (fun _ => ⟨List.replicate 1000 qPage, rfl, by simp⟩) initialFetchState 1 (by decide)).2.1⟩

/-! ## C3: a failing page aborts the fetch, caches nothing, resets the promise -/

/-- If every page before `k` is full and page `k` returns a non-success
status or a malformed body, the uncapped loop ends in `error`. -/
theorem fetchLoop_error_of_failure (backend : Nat → PageResult) (k : Nat)
    (hok : ∀ p, 1 ≤ p → p < k → ∃ qs, backend p = .ok qs ∧ qs.length = 1000)
    (hbad : (∃ s, backend k = .httpError s) ∨ backend k = .malformed) :
    ∀ (fuel page : Nat) (acc : List Question), 1 ≤ page → page ≤ k → k - page < fuel →
      fetchLoop backend none fuel page acc = .error := by
  intro fuel
  induction fuel with
  | zero => intro page acc _ _ hcontra; omega
  | succ f ih =>
    intro page acc h1p hpk hfp
    by_cases hpk' : page = k
    · subst hpk'
      unfold fetchLoop
      rcases hbad with ⟨s, hs⟩ | hm
      · rw [hs]
      · rw [hm]
    · obtain ⟨qs, hb, hlen⟩ := hok page h1p (by omega)
      unfold fetchLoop
      rw [hb]
      dsimp only
      rw [if_neg (by simp [maxTruthy])]
      rw [if_pos hlen]
      exact ih (page + 1) (acc ++ qs) (by omega) (by omega) (by omega)

/-- C3: an uncapped run that hits a bad page throws: the call yields
`error`, the full-result cache stays unset, the in-flight promise is
reset to `null`, and a subsequent uncapped call therefore behaves
exactly like a call on the fresh initial state (a fresh fetch from
page 1). -/
theorem fetch_error_resets (backend : Nat → PageResult) (k fuel : Nat)
    (h1k : 1 ≤ k) (hkf : k ≤ fuel)
    (hok : ∀ p, 1 ≤ p → p < k → ∃ qs, backend p = .ok qs ∧ qs.length = 1000)
    (hbad : (∃ s, backend k = .httpError s) ∨ backend k = .malformed) :
    fetchAllQuestions backend none initialFetchState fuel = (.error, initialFetchState) ∧
    ∀ (backend2 : Nat → PageResult) (fuel2 : Nat),
      fetchAllQuestions backend2 none
          (fetchAllQuestions backend none initialFetchState fuel).2 fuel2 =
        fetchAllQuestions backend2 none initialFetchState fuel2 := by
  have hloop : fetchLoop backend none fuel 1 [] = .error :=
    fetchLoop_error_of_failure backend k hok hbad fuel 1 [] (by omega) h1k (by omega)
  have hlogic : fetchLogic backend none fuel = .error := by
    unfold fetchLogic
    rw [hloop]
  have hmain : fetchAllQuestions backend none initialFetchState fuel =
      (.error, initialFetchState) := by
    unfold fetchAllQuestions
    rw [if_neg (by simp [initialFetchState]), if_neg (by simp [initialFetchState])]
    rw [if_pos (by simp [maxTruthy])]
    rw [hlogic]
    rfl
  exact ⟨hmain, fun backend2 fuel2 => by rw [hmain]⟩

/-- C3 witness: page 1 full, page 2 answering HTTP 500, fuel 2. -/
theorem fetch_error_resets_witness :
    fetchAllQuestions failingBackend none initialFetchState 2 = (.error, initialFetchState) :=
  (fetch_error_resets failingBackend 2 2 (by decide) (by decide)
    (fun p h1 h2 => by
      have hp : p = 1 := by omega
      subst hp
      exact ⟨List.replicate 1000 qPage, rfl, by simp⟩)
    (Or.inl ⟨500, rfl⟩)).1

/-! ## Sanitization lemmas (shared by C1 and C6) -/

theorem replaceInvalid_valid (s : Str) : ∀ c ∈ replaceInvalid s, validSlugChar c = true := by
  intro c hc
  obtain ⟨a, _, ha⟩ := List.mem_map.1 hc
  by_cases h : validSlugChar a = true
  · rw [if_pos h] at ha
    rw [← ha]
    exact h
  · rw [if_neg h] at ha
    rw [← ha]
    decide

theorem collapseHyphensAux_subset (s : Str) :
    ∀ (p : Bool) (c : Char), c ∈ collapseHyphensAux p s → c ∈ s := by
  induction s with
  | nil => intro p c h; exact absurd h (by simp [collapseHyphensAux])
  | cons a rest ih =>
    intro p c h
    unfold collapseHyphensAux at h
    by_cases ha : a = '-'
    · rw [if_pos ha] at h
      by_cases hp : p = true
      · rw [if_pos hp] at h
        exact List.mem_cons_of_mem _ (ih true c h)
      · rw [if_neg hp] at h
        rcases List.mem_cons.1 h with rfl | h'
        · exact ha ▸ List.mem_cons_self _ _
        · exact List.mem_cons_of_mem _ (ih true c h')
    · rw [if_neg ha] at h
      rcases List.mem_cons.1 h with rfl | h'
      · exact List.mem_cons_self _ _
      · exact List.mem_cons_of_mem _ (ih false c h')

theorem collapseHyphensAux_length (s : Str) :
    ∀ p : Bool, (collapseHyphensAux p s).length ≤ s.length := by
  induction s with
  | nil => intro p; simp [collapseHyphensAux]
  | cons a rest ih =>
    intro p
    unfold collapseHyphensAux
    by_cases ha : a = '-'
    · rw [if_pos ha]
      by_cases hp : p = true
      · rw [if_pos hp]
        exact le_trans (ih true) (by simp)
      · rw [if_neg hp]
        simpa using ih true
    · rw [if_neg ha]
      simpa using ih false

theorem trimLeadHyphen_subset (s : Str) : ∀ c ∈ trimLeadHyphen s, c ∈ s := by
  intro c
  match s with
  | [] => exact fun h => h
  | a :: rest =>
    simp only [trimLeadHyphen]
    by_cases ha : a = '-'
    · rw [if_pos ha]
      exact fun h => List.mem_cons_of_mem _ h
    · rw [if_neg ha]
      exact fun h => h

theorem trimLeadHyphen_length (s : Str) : (trimLeadHyphen s).length ≤ s.length := by
  match s with
  | [] => exact le_refl _
  | a :: rest =>
    simp only [trimLeadHyphen]
    by_cases ha : a = '-'
    · rw [if_pos ha]; simp
    · rw [if_neg ha]

theorem trimTrailHyphen_subset (s : Str) : ∀ c ∈ trimTrailHyphen s, c ∈ s := by
  intro c h
  unfold trimTrailHyphen at h
  rw [List.mem_reverse] at h
  have := trimLeadHyphen_subset s.reverse c h
  rwa [List.mem_reverse] at this

theorem trimTrailHyphen_length (s : Str) : (trimTrailHyphen s).length ≤ s.length := by
  unfold trimTrailHyphen
  rw [List.length_reverse]
  calc (trimLeadHyphen s.reverse).length ≤ s.reverse.length := trimLeadHyphen_length _
    _ = s.length := List.length_reverse _

/-- Every character of the sanitized slug lies in `[a-z0-9-]`. -/
theorem sanitizeSlug_valid (s : Str) : ∀ c ∈ sanitizeSlug s, validSlugChar c = true := by
  intro c hc
  unfold sanitizeSlug at hc
  exact replaceInvalid_valid s c
    (collapseHyphensAux_subset _ false c
      (trimLeadHyphen_subset _ c (trimTrailHyphen_subset _ c hc)))

theorem sanitizeSlug_length (s : Str) : (sanitizeSlug s).length ≤ s.length := by
  unfold sanitizeSlug
  calc (trimTrailHyphen (trimLeadHyphen (collapseHyphens (replaceInvalid s)))).length
      ≤ (trimLeadHyphen (collapseHyphens (replaceInvalid s))).length := trimTrailHyphen_length _
    _ ≤ (collapseHyphens (replaceInvalid s)).length := trimLeadHyphen_length _
    _ ≤ (replaceInvalid s).length := collapseHyphensAux_length _ false
    _ = s.length := List.length_map _ _

theorem collapseHyphensAux_chain (s : Str) :
    ∀ p : Bool, List.Chain' adjOk (collapseHyphensAux p s) ∧
      (p = true → ∀ c, (collapseHyphensAux p s).head? = some c → c ≠ '-') := by
  induction s with
  | nil =>
    intro p
    exact ⟨List.chain'_nil, fun _ c h => by simp [collapseHyphensAux] at h⟩
  | cons a rest ih =>
    intro p
    unfold collapseHyphensAux
    by_cases ha : a = '-'
    · rw [if_pos ha]
      by_cases hp : p = true
      · rw [if_pos hp]
        exact ⟨(ih true).1, fun _ => (ih true).2 rfl⟩
      · rw [if_neg hp]
        refine ⟨List.chain'_cons'.2 ⟨?_, (ih true).1⟩, fun hcontra => absurd hcontra hp⟩
        intro y hy
        intro hcontra
        exact (ih true).2 rfl y (Option.mem_def.1 hy) hcontra.2
    · rw [if_neg ha]
      refine ⟨List.chain'_cons'.2 ⟨?_, (ih false).1⟩, ?_⟩
      · intro y _
        exact fun hcontra => ha hcontra.1
      · intro _ c hc
        simp only [List.head?_cons, Option.some_inj] at hc
        rw [← hc]
        exact ha

theorem trimLeadHyphen_head (s : Str) (hchain : List.Chain' adjOk s) :
    ∀ c, (trimLeadHyphen s).head? = some c → c ≠ '-' := by
  intro c hc
  match s, hchain with
  | [], _ => simp [trimLeadHyphen] at hc
  | a :: rest, hchain =>
    simp only [trimLeadHyphen] at hc
    by_cases ha : a = '-'
    · rw [if_pos ha] at hc
      intro hcontra
      cases rest with
      | nil => simp at hc
      | cons b t =>
        simp only [List.head?_cons, Option.some_inj] at hc
        exact (List.chain'_cons.1 hchain).1 ⟨ha, by rw [hc, hcontra]⟩
    · rw [if_neg ha] at hc
      simp only [List.head?_cons, Option.some_inj] at hc
      rw [← hc]
      exact ha

theorem trimLeadHyphen_chain (s : Str) (hchain : List.Chain' adjOk s) :
    List.Chain' adjOk (trimLeadHyphen s) := by
  match s with
  | [] => exact hchain
  | a :: rest =>
    simp only [trimLeadHyphen]
    by_cases ha : a = '-'
    · rw [if_pos ha]
      exact (List.chain'_cons'.1 hchain).2
    · rw [if_neg ha]
      exact hchain

theorem chain_reverse_adjOk (s : Str) (hchain : List.Chain' adjOk s) :
    List.Chain' adjOk s.reverse := by
  rw [List.chain'_reverse]
  exact hchain.imp (fun a b hab => fun hcontra => hab ⟨hcontra.2, hcontra.1⟩)

theorem trimTrailHyphen_getLast (s : Str) (hchain : List.Chain' adjOk s) :
    ∀ c, (trimTrailHyphen s).getLast? = some c → c ≠ '-' := by
  intro c hc
  unfold trimTrailHyphen at hc
  rw [List.getLast?_reverse] at hc
  exact trimLeadHyphen_head s.reverse (chain_reverse_adjOk s hchain) c hc

/-- `trimTrailHyphen` returns either the string or its `dropLast`. -/
theorem trimTrailHyphen_cases (s : Str) :
    trimTrailHyphen s = s ∨ trimTrailHyphen s = s.dropLast := by
  unfold trimTrailHyphen
  cases hrev : s.reverse with
  | nil =>
    left
    have : s = [] := by simpa using congrArg List.reverse hrev
    simp [this, trimLeadHyphen]
  | cons a r =>
    simp only [trimLeadHyphen]
    by_cases ha : a = '-'
    · right
      rw [if_pos ha]
      have hs : s = r.reverse ++ [a] := by
        have := congrArg List.reverse hrev
        simpa using this
      rw [hs, List.dropLast_concat]
    · left
      rw [if_neg ha, ← hrev, List.reverse_reverse]

theorem head?_dropLast (s : Str) (c : Char) (h : (s.dropLast).head? = some c) :
    s.head? = some c := by
  match s with
  | [] => simp [List.dropLast] at h
  | [x] => simp [List.dropLast] at h
  | x :: y :: t =>
    rw [show (x :: y :: t).dropLast = x :: (y :: t).dropLast from rfl] at h
    simpa using h

theorem trimTrailHyphen_head (s : Str) (hh : ∀ c, s.head? = some c → c ≠ '-') :
    ∀ c, (trimTrailHyphen s).head? = some c → c ≠ '-' := by
  intro c hc
  rcases trimTrailHyphen_cases s with he | he
  · rw [he] at hc
    exact hh c hc
  · rw [he] at hc
    exact hh c (head?_dropLast s c hc)

/-- The sanitized slug never starts with a hyphen. -/
theorem sanitizeSlug_head (s : Str) : ∀ c, (sanitizeSlug s).head? = some c → c ≠ '-' := by
  unfold sanitizeSlug
  exact trimTrailHyphen_head _
    (trimLeadHyphen_head _ (collapseHyphensAux_chain (replaceInvalid s) false).1)

/-- The sanitized slug never ends with a hyphen. -/
theorem sanitizeSlug_getLast (s : Str) : ∀ c, (sanitizeSlug s).getLast? = some c → c ≠ '-' := by
  unfold sanitizeSlug
  exact trimTrailHyphen_getLast _
    (trimLeadHyphen_chain _ (collapseHyphensAux_chain (replaceInvalid s) false).1)

/-! ## Decimal-rendering lemmas -/

theorem digitChar_isDigit (d : Nat) (h : d < 10) : isDigitChar (digitChar d) = true := by
  interval_cases d <;> decide

theorem natToStrAux_congr (n : Nat) :
    ∀ f1 f2 : Nat, n < f1 → n < f2 → natToStrAux f1 n = natToStrAux f2 n := by
  induction n using Nat.strong_induction_on with
  | _ n ih =>
    intro f1 f2 h1 h2
    obtain ⟨g1, rfl⟩ : ∃ g, f1 = g + 1 := ⟨f1 - 1, by omega⟩
    obtain ⟨g2, rfl⟩ : ∃ g, f2 = g + 1 := ⟨f2 - 1, by omega⟩
    unfold natToStrAux
    by_cases h : n < 10
    · rw [if_pos h, if_pos h]
    · rw [if_neg h, if_neg h,
        ih (n / 10) (Nat.div_lt_self (by omega) (by omega)) g1 (g2 + 1)
          (by omega) (by omega),
        ih (n / 10) (Nat.div_lt_self (by omega) (by omega)) (g2 + 1) g2
          (by omega) (by omega)]

/-- The recursion equation of `natToStr`. -/
theorem natToStr_eq (n : Nat) :
    natToStr n = if n < 10 then [digitChar n]
      else natToStr (n / 10) ++ [digitChar (n % 10)] := by
  show natToStrAux (n + 1) n = _
  unfold natToStrAux
  by_cases h : n < 10
  · rw [if_pos h, if_pos h]
  · rw [if_neg h, if_neg h,
      natToStrAux_congr (n / 10) n (n / 10 + 1)
        (Nat.div_lt_self (by omega) (by omega)) (by omega)]
    rfl

theorem natToStr_digits (n : Nat) : ∀ c ∈ natToStr n, isDigitChar c = true := by
  induction n using Nat.strong_induction_on with
  | _ n ih =>
    intro c hc
    rw [natToStr_eq] at hc
    by_cases h : n < 10
    · rw [if_pos h] at hc
      rcases List.mem_singleton.1 hc with rfl
      exact digitChar_isDigit n h
    · rw [if_neg h] at hc
      rcases List.mem_append.1 hc with h1 | h1
      · exact ih (n / 10) (Nat.div_lt_self (by omega) (by omega)) c h1
      · rcases List.mem_singleton.1 h1 with rfl
        exact digitChar_isDigit (n % 10) (Nat.mod_lt _ (by omega))

theorem natToStr_ne_nil (n : Nat) : natToStr n ≠ [] := by
  rw [natToStr_eq]
  by_cases h : n < 10
  · rw [if_pos h]; simp
  · rw [if_neg h]; simp

theorem isDigitChar_ne_hyphen (c : Char) (h : isDigitChar c = true) : c ≠ '-' := by
  intro hcontra
  rw [hcontra] at h
  simp [isDigitChar] at h

theorem isDigitChar_valid (c : Char) (h : isDigitChar c = true) : validSlugChar c = true := by
  simp only [isDigitChar, Bool.and_eq_true] at h
  simp [validSlugChar, h.1, h.2]

theorem digitChar_val (d : Nat) (h : d < 10) : (digitChar d).toNat - 48 = d := by
  interval_cases d <;> decide

/-- `strToNat` is a left inverse of `natToStr`: decimal rendering is
injective. -/
theorem strToNat_natToStr (n : Nat) : strToNat (natToStr n) = n := by
  induction n using Nat.strong_induction_on with
  | _ n ih =>
    rw [natToStr_eq]
    by_cases h : n < 10
    · rw [if_pos h]
      show List.foldl _ 0 [digitChar n] = n
      simp [digitChar_val n h]
    · rw [if_neg h]
      unfold strToNat
      rw [List.foldl_append]
      have hrec : List.foldl (fun a c => 10 * a + (c.toNat - 48)) 0 (natToStr (n / 10)) =
          n / 10 := ih (n / 10) (Nat.div_lt_self (by omega) (by omega))
      rw [hrec]
      show 10 * (n / 10) + ((digitChar (n % 10)).toNat - 48) = n
      rw [digitChar_val (n % 10) (Nat.mod_lt _ (by omega))]
      omega

theorem natToStr_inj (a b : Nat) (h : natToStr a = natToStr b) : a = b := by
  have := strToNat_natToStr a
  rw [h, strToNat_natToStr b] at this
  omega

/-! ## C6: shape of buildBaseSlug output -/

theorem questionFallback_valid (n : Nat) :
    ∀ c ∈ questionFallback n, validSlugChar c = true := by
  intro c hc
  rcases List.mem_append.1 hc with h1 | h1
  · have hall : ∀ c ∈ strL "question-", validSlugChar c = true := by decide
    exact hall c h1
  · exact isDigitChar_valid c (natToStr_digits n c h1)

theorem questionFallback_head (n : Nat) : (questionFallback n).head? = some 'q' := rfl

theorem questionFallback_getLast (n : Nat) :
    ∀ c, (questionFallback n).getLast? = some c → c ≠ '-' := by
  intro c hc
  rw [questionFallback, List.getLast?_append_of_ne_nil _ (natToStr_ne_nil n)] at hc
  obtain ⟨hne, heq⟩ := List.mem_getLast?_eq_getLast (Option.mem_def.2 hc)
  exact isDigitChar_ne_hyphen c
    (natToStr_digits n c (heq ▸ List.getLast_mem hne))

/-- C6: the slug returned by `buildBaseSlug` contains only characters in
`[a-z0-9-]` and neither starts nor ends with a hyphen; moreover, when
the `-q<n>` truncation fallback is not needed (the joined slug fits in
200 characters), the output length stays within 200 characters (or is
the `question-<n>` degenerate slug, whose length is that of
`question-<n>` itself — the `max` accounts for unboundedly long model
question numbers, which JS cannot produce). -/
theorem buildBaseSlug_shape (q : Question) :
    (∀ c ∈ buildBaseSlug q, validSlugChar c = true) ∧
    (∀ c, (buildBaseSlug q).head? = some c → c ≠ '-') ∧
    (∀ c, (buildBaseSlug q).getLast? = some c → c ≠ '-') ∧
    ((slugJoined q).length ≤ 200 →
      (buildBaseSlug q).length ≤ max 200 (questionFallback q.questionNumber).length) := by
  unfold buildBaseSlug
  by_cases hft : fieldsTruthy q = true
  · rw [if_neg (by simp [hft])]
    by_cases hemp : (sanitizeSlug (slugTruncated q)).isEmpty = true
    · rw [if_pos hemp]
      refine ⟨questionFallback_valid _, ?_, questionFallback_getLast _, ?_⟩
      · intro c hc
        rw [questionFallback_head] at hc
        rcases Option.some_inj.1 hc with rfl
        decide
      · intro _
        exact le_max_right _ _
    · rw [if_neg hemp]
      refine ⟨sanitizeSlug_valid _, sanitizeSlug_head _, sanitizeSlug_getLast _, ?_⟩
      intro hlen
      have htr : slugTruncated q = slugJoined q := by
        unfold slugTruncated
        rw [if_neg (by omega)]
      refine le_trans ?_ (le_max_left 200 _)
      calc (sanitizeSlug (slugTruncated q)).length
          ≤ (slugTruncated q).length := sanitizeSlug_length _
        _ = (slugJoined q).length := by rw [htr]
        _ ≤ 200 := hlen
  · rw [if_pos (by simp [hft])]
    refine ⟨questionFallback_valid _, ?_, questionFallback_getLast _, ?_⟩
    · intro c hc
      rw [questionFallback_head] at hc
      rcases Option.some_inj.1 hc with rfl
      decide
    · intro _
      exact le_max_right _ _

/-- C6 witness: the spec §8 example question; its joined slug fits in
200 characters and the resulting slug obeys all shape constraints. -/
theorem buildBaseSlug_shape_witness :
    (slugJoined qEx).length ≤ 200 ∧
      (buildBaseSlug qEx).length ≤ max 200 (questionFallback qEx.questionNumber).length :=
  ⟨by decide, (buildBaseSlug_shape qEx).2.2.2 (by decide)⟩

/-! ## C1: generateAllSlugs -/

/-- Pass 1 groups the question numbers by base slug, in input order. -/
theorem baseSlugCounts_lookup (qs : List Question) (b : Str) :
    alLookup (baseSlugCounts qs) b =
      if (collidingNumbers qs b).isEmpty then none else some (collidingNumbers qs b) := by
  have hdef : baseSlugCounts qs =
      qs.foldl (pushStep (fun q => some (buildBaseSlug q)) (fun q => q.questionNumber)) [] := rfl
  rw [hdef, alPush_foldl_lookup (fun q => some (buildBaseSlug q)) (fun q => q.questionNumber)
    qs [] b]
  have hfc : qs.filter (fun q => decide (some (buildBaseSlug q) = some b)) =
      qs.filter (fun q => decide (buildBaseSlug q = b)) := by
    refine List.filter_congr ?_
    intro q _
    simp
  rw [show alLookup ([] : List (Str × List Nat)) b = none from rfl, hfc]
  dsimp only
  have hie : (collidingNumbers qs b).isEmpty =
      (qs.filter (fun q => decide (buildBaseSlug q = b))).isEmpty := by
    unfold collidingNumbers
    cases qs.filter (fun q => decide (buildBaseSlug q = b)) <;> rfl
  rw [← hie]
  rfl

theorem mem_collidingNumbers (qs : List Question) (q : Question) (hq : q ∈ qs) :
    q.questionNumber ∈ collidingNumbers qs (buildBaseSlug q) := by
  exact List.mem_map.2 ⟨q, List.mem_filter.2 ⟨hq, by simp⟩, rfl⟩

/-- `slugAssigned` in terms of the colliding group. -/
theorem slugAssigned_eq (qs : List Question) (q : Question) (hq : q ∈ qs) :
    slugAssigned qs q =
      (if (collidingNumbers qs (buildBaseSlug q)).length = 1 then buildBaseSlug q
       else buildBaseSlug q ++ '-' :: natToStr
         (idxOfN q.questionNumber
           (List.insertionSort (· ≤ ·) (collidingNumbers qs (buildBaseSlug q))) + 1)) := by
  unfold slugAssigned
  dsimp only
  rw [baseSlugCounts_lookup]
  have hne : ¬ ((collidingNumbers qs (buildBaseSlug q)).isEmpty = true) := by
    intro hcontra
    have hmem := mem_collidingNumbers qs q hq
    rw [List.isEmpty_iff.1 hcontra] at hmem
    exact absurd hmem (List.not_mem_nil _)
  rw [if_neg hne]
  rfl

theorem filter_eq_singleton_of_nodup {α β : Type} [DecidableEq β] (f : α → β) :
    ∀ (l : List α) (q : α), (l.map f).Nodup → q ∈ l →
      l.filter (fun a => decide (f a = f q)) = [q] := by
  intro l
  induction l with
  | nil => intro q _ hq; exact absurd hq (List.not_mem_nil _)
  | cons a t ih =>
    intro q hnodup hq
    rw [List.map_cons, List.nodup_cons] at hnodup
    by_cases hqa : q = a
    · subst hqa
      rw [List.filter_cons, if_pos (by simp)]
      rw [List.filter_eq_nil_iff.2 (fun x hx => by
        simp only [decide_eq_true_eq]
        intro hcontra
        exact hnodup.1 (hcontra ▸ List.mem_map_of_mem f hx))]
    · have hqt : q ∈ t := (List.mem_cons.1 hq).resolve_left hqa
      have hfa : f a ≠ f q := by
        intro hcontra
        exact hnodup.1 (hcontra ▸ List.mem_map_of_mem f hqt)
      rw [List.filter_cons, if_neg (by simpa using hfa)]
      exact ih q hnodup.2 hqt

/-- Pass 2's final map sends each question number to that question's
assigned slug (given globally distinct numbers). -/
theorem generateAllSlugs_lookup (qs : List Question)
    (hnodup : (qs.map (fun q => q.questionNumber)).Nodup) (q : Question) (hq : q ∈ qs) :
    alLookup (generateAllSlugs qs) q.questionNumber = some (slugAssigned qs q) := by
  unfold generateAllSlugs
  rw [alSet_foldl_lookup (fun q => q.questionNumber) (fun q' => slugAssigned qs q') qs []
    q.questionNumber]
  rw [filter_eq_singleton_of_nodup (fun q => q.questionNumber) qs q hnodup hq]
  rfl

theorem idxOfN_ne (a b : Nat) : ∀ l : List Nat, a ∈ l → b ∈ l → a ≠ b →
    idxOfN a l ≠ idxOfN b l := by
  intro l
  induction l with
  | nil => intro ha; exact absurd ha (List.not_mem_nil _)
  | cons m t ih =>
    intro ha hb hab
    unfold idxOfN
    by_cases hma : m = a
    · rw [if_pos hma, if_neg (show ¬ m = b by rw [hma]; exact hab)]
      omega
    · rw [if_neg hma]
      by_cases hmb : m = b
      · rw [if_pos hmb]
        omega
      · rw [if_neg hmb]
        have := ih ((List.mem_cons.1 ha).resolve_left (fun h => hma h.symm))
          ((List.mem_cons.1 hb).resolve_left (fun h => hmb h.symm)) hab
        omega

/-- Two decimal blocks followed by hyphen-led (or empty) tails can only
agree when both blocks and both tails agree. -/
theorem digits_split :
    ∀ (d1 d2 t1 t2 : Str),
      (∀ c ∈ d1, isDigitChar c = true) → (∀ c ∈ d2, isDigitChar c = true) →
      d1 ≠ [] → d2 ≠ [] →
      (t1 = [] ∨ ∃ r, t1 = '-' :: r) → (t2 = [] ∨ ∃ r, t2 = '-' :: r) →
      d1 ++ t1 = d2 ++ t2 → d1 = d2 ∧ t1 = t2 := by
  intro d1
  induction d1 with
  | nil => intro d2 t1 t2 _ _ hn1; exact absurd rfl hn1
  | cons c cs ih =>
    intro d2 t1 t2 hd1 hd2 _ hn2 ht1 ht2 heq
    cases d2 with
    | nil => exact absurd rfl hn2
    | cons e es =>
      rw [List.cons_append, List.cons_append] at heq
      obtain ⟨hce, htail⟩ := List.cons.inj heq
      subst hce
      cases cs with
      | nil =>
        cases es with
        | nil =>
          simp only [List.nil_append] at htail
          exact ⟨rfl, htail⟩
        | cons e2 es2 =>
          exfalso
          simp only [List.nil_append, List.cons_append] at htail
          rcases ht1 with rfl | ⟨r, rfl⟩
          · simp at htail
          · have hh := (List.cons.inj htail).1
            have hdig := hd2 e2 (by simp)
            rw [← hh] at hdig
            simp [isDigitChar] at hdig
      | cons c2 cs2 =>
        cases es with
        | nil =>
          exfalso
          simp only [List.nil_append, List.cons_append] at htail
          rcases ht2 with rfl | ⟨r, rfl⟩
          · simp at htail
          · have hh := (List.cons.inj htail).1
            have hdig := hd1 c2 (by simp)
            rw [hh] at hdig
            simp [isDigitChar] at hdig
        | cons e2 es2 =>
          rw [List.cons_append, List.cons_append] at htail
          obtain ⟨hds, hts⟩ := ih (e2 :: es2) t1 t2
            (fun x hx => hd1 x (List.mem_cons_of_mem _ hx))
            (fun x hx => hd2 x (List.mem_cons_of_mem _ hx))
            (by simp) (by simp) ht1 ht2 htail
          exact ⟨by rw [hds], hts⟩

theorem replaceInvalid_digits (d : Str) (hd : ∀ c ∈ d, isDigitChar c = true) :
    replaceInvalid d = d := by
  unfold replaceInvalid
  induction d with
  | nil => rfl
  | cons a t ih =>
    rw [List.map_cons, if_pos (isDigitChar_valid a (hd a (List.mem_cons_self _ _))),
      ih (fun c hc => hd c (List.mem_cons_of_mem _ hc))]

theorem collapseHyphensAux_noHyphen (d : Str) (hd : ∀ c ∈ d, c ≠ '-') :
    ∀ p, collapseHyphensAux p d = d := by
  induction d with
  | nil => intro p; rfl
  | cons a t ih =>
    intro p
    unfold collapseHyphensAux
    rw [if_neg (hd a (List.mem_cons_self _ _)),
      ih (fun c hc => hd c (List.mem_cons_of_mem _ hc)) false]

theorem collapseHyphensAux_append (d : Str) (hd : ∀ c ∈ d, c ≠ '-') :
    ∀ (y : Str) (p : Bool), collapseHyphensAux p (y ++ d) = collapseHyphensAux p y ++ d := by
  intro y
  induction y with
  | nil =>
    intro p
    rw [List.nil_append, collapseHyphensAux_noHyphen d hd p]
    rfl
  | cons a t ih =>
    intro p
    rw [List.cons_append]
    unfold collapseHyphensAux
    by_cases ha : a = '-'
    · rw [if_pos ha, if_pos ha]
      by_cases hp : p = true
      · rw [if_pos hp, if_pos hp, ih true]
      · rw [if_neg hp, if_neg hp, ih true]
        rfl
    · rw [if_neg ha, if_neg ha, ih false]
      rfl

theorem trimLeadHyphen_append (d : Str) (hne : d ≠ []) (hd : ∀ c ∈ d, c ≠ '-') :
    ∀ z : Str, trimLeadHyphen (z ++ d) = trimLeadHyphen z ++ d := by
  intro z
  cases z with
  | nil =>
    rw [List.nil_append]
    cases d with
    | nil => exact absurd rfl hne
    | cons a t =>
      simp only [trimLeadHyphen]
      rw [if_neg (hd a (List.mem_cons_self _ _))]
      rfl
  | cons a z' =>
    rw [List.cons_append]
    simp only [trimLeadHyphen]
    by_cases ha : a = '-'
    · rw [if_pos ha, if_pos ha]
    · rw [if_neg ha, if_neg ha]
      rfl

theorem trimTrailHyphen_append (d : Str) (hne : d ≠ []) (hd : ∀ c ∈ d, c ≠ '-') (w : Str) :
    trimTrailHyphen (w ++ d) = w ++ d := by
  unfold trimTrailHyphen
  rw [List.reverse_append]
  cases hdr : d.reverse with
  | nil => exact absurd (by simpa using congrArg List.reverse hdr) hne
  | cons c t =>
    have hc : c ≠ '-' := by
      refine hd c ?_
      rw [← List.mem_reverse, hdr]
      exact List.mem_cons_self _ _
    rw [List.cons_append]
    simp only [trimLeadHyphen]
    rw [if_neg hc, ← List.cons_append, ← hdr, ← List.reverse_append, List.reverse_reverse]

/-- Sanitizing a string that ends in a nonempty decimal block leaves the
block intact and appended to the sanitization of the front. -/
theorem sanitizeSlug_append_digits (x d : Str) (hd : ∀ c ∈ d, isDigitChar c = true)
    (hne : d ≠ []) :
    sanitizeSlug (x ++ d) = trimLeadHyphen (collapseHyphens (replaceInvalid x)) ++ d := by
  have hdh : ∀ c ∈ d, c ≠ '-' := fun c hc => isDigitChar_ne_hyphen c (hd c hc)
  unfold sanitizeSlug
  rw [show replaceInvalid (x ++ d) = replaceInvalid x ++ d from by
    unfold replaceInvalid
    rw [List.map_append]
    rw [show List.map (fun c => if validSlugChar c = true then c else '-') d = d from
      replaceInvalid_digits d hd]]
  rw [show collapseHyphens (replaceInvalid x ++ d) = collapseHyphens (replaceInvalid x) ++ d from
    collapseHyphensAux_append d hdh (replaceInvalid x) false]
  rw [trimLeadHyphen_append d hne hdh]
  exact trimTrailHyphen_append d hne hdh _

theorem fieldsTruthy_congr (q1 q2 : Question) (hs : q1.statement = q2.statement)
    (he : q1.exam = q2.exam) (ht : q1.topic = q2.topic) :
    fieldsTruthy q1 = fieldsTruthy q2 := by
  unfold fieldsTruthy
  rw [hs, he, ht]

theorem slugJoined_congr (q1 q2 : Question) (hs : q1.statement = q2.statement)
    (he : q1.exam = q2.exam) (hsub : q1.subExam = q2.subExam) (ht : q1.topic = q2.topic) :
    slugJoined q1 = slugJoined q2 := by
  unfold slugJoined statementSlugOf statementTextOf examSlugOf subExamSlugOf topicSlugOf
  rw [hs, he, hsub, ht]

/-- On the truncation path the base slug is a common sanitized prefix
followed by the decimal question number. -/
theorem buildBaseSlug_truncated (q : Question) (hft : fieldsTruthy q = true)
    (h200 : 200 < (slugJoined q).length) :
    buildBaseSlug q =
      trimLeadHyphen (collapseHyphens (replaceInvalid ((slugJoined q).take 180 ++ strL "-q")))
        ++ natToStr q.questionNumber := by
  unfold buildBaseSlug
  rw [if_neg (by simp [hft])]
  have hst : slugTruncated q =
      ((slugJoined q).take 180 ++ strL "-q") ++ natToStr q.questionNumber := by
    unfold slugTruncated
    rw [if_pos h200, List.append_assoc]
  rw [hst, sanitizeSlug_append_digits _ _ (natToStr_digits _) (natToStr_ne_nil _)]
  rw [if_neg (by
    rw [List.isEmpty_iff]
    intro hcontra
    exact natToStr_ne_nil q.questionNumber (List.append_eq_nil.1 hcontra).2)]

/-- Two questions with identical statement, exam, sub-exam and topic
either share their base slug or their base slugs are a common prefix
followed by their respective decimal question numbers. -/
theorem buildBaseSlug_pair (q1 q2 : Question) (hs : q1.statement = q2.statement)
    (he : q1.exam = q2.exam) (hsub : q1.subExam = q2.subExam) (ht : q1.topic = q2.topic) :
    buildBaseSlug q1 = buildBaseSlug q2 ∨
    ∃ P : Str, buildBaseSlug q1 = P ++ natToStr q1.questionNumber ∧
      buildBaseSlug q2 = P ++ natToStr q2.questionNumber := by
  have hft := fieldsTruthy_congr q1 q2 hs he ht
  have hsj := slugJoined_congr q1 q2 hs he hsub ht
  by_cases h1 : fieldsTruthy q1 = true
  · by_cases h200 : 200 < (slugJoined q1).length
    · right
      refine ⟨trimLeadHyphen (collapseHyphens (replaceInvalid
        ((slugJoined q1).take 180 ++ strL "-q"))), buildBaseSlug_truncated q1 h1 h200, ?_⟩
      rw [buildBaseSlug_truncated q2 (hft ▸ h1) (hsj ▸ h200), hsj]
    · have h200' : ¬ 200 < (slugJoined q2).length := by
        rw [← hsj]
        exact h200
      have htr1 : slugTruncated q1 = slugJoined q1 := by
        unfold slugTruncated
        rw [if_neg h200]
      have htr2 : slugTruncated q2 = slugTruncated q1 := by
        unfold slugTruncated
        rw [if_neg h200, if_neg h200', hsj]
      by_cases hemp : (sanitizeSlug (slugTruncated q1)).isEmpty = true
      · right
        refine ⟨strL "question-", ?_, ?_⟩
        · unfold buildBaseSlug
          rw [if_neg (show ¬ ((!fieldsTruthy q1) = true) by simp [h1]), if_pos hemp]
          rfl
        · unfold buildBaseSlug
          rw [if_neg (show ¬ ((!fieldsTruthy q2) = true) by simp [hft ▸ h1]),
            if_pos (show (sanitizeSlug (slugTruncated q2)).isEmpty = true by
              rw [htr2]; exact hemp)]
          rfl
      · left
        have hb1 : buildBaseSlug q1 = sanitizeSlug (slugTruncated q1) := by
          unfold buildBaseSlug
          rw [if_neg (show ¬ ((!fieldsTruthy q1) = true) by simp [h1]), if_neg hemp]
        have hb2 : buildBaseSlug q2 = sanitizeSlug (slugTruncated q2) := by
          unfold buildBaseSlug
          rw [if_neg (show ¬ ((!fieldsTruthy q2) = true) by simp [hft ▸ h1]),
            if_neg (show ¬ ((sanitizeSlug (slugTruncated q2)).isEmpty = true) by
              rw [htr2]; exact hemp)]
        rw [hb1, hb2, htr2]
  · right
    refine ⟨strL "question-", ?_, ?_⟩
    · unfold buildBaseSlug
      rw [if_pos (by simp [h1])]
      rfl
    · unfold buildBaseSlug
      rw [if_pos (by simp [hft ▸ h1])]
      rfl

/-- Questions with identical statement, exam, sub-exam and topic but
different numbers are assigned different slugs. -/
theorem slugAssigned_ne (qs : List Question) (q1 q2 : Question)
    (hq1 : q1 ∈ qs) (hq2 : q2 ∈ qs)
    (hs : q1.statement = q2.statement) (he : q1.exam = q2.exam)
    (hsub : q1.subExam = q2.subExam) (ht : q1.topic = q2.topic)
    (hneq : q1.questionNumber ≠ q2.questionNumber) :
    slugAssigned qs q1 ≠ slugAssigned qs q2 := by
  rw [slugAssigned_eq qs q1 hq1, slugAssigned_eq qs q2 hq2]
  rcases buildBaseSlug_pair q1 q2 hs he hsub ht with hbeq | ⟨P, hp1, hp2⟩
  · rw [hbeq]
    have hm1 : q1.questionNumber ∈ collidingNumbers qs (buildBaseSlug q2) := by
      rw [← hbeq]
      exact mem_collidingNumbers qs q1 hq1
    have hm2 : q2.questionNumber ∈ collidingNumbers qs (buildBaseSlug q2) :=
      mem_collidingNumbers qs q2 hq2
    have hlen : ¬ ((collidingNumbers qs (buildBaseSlug q2)).length = 1) := by
      intro hcontra
      obtain ⟨a, ha⟩ := List.length_eq_one.1 hcontra
      rw [ha] at hm1 hm2
      exact hneq ((List.mem_singleton.1 hm1).trans (List.mem_singleton.1 hm2).symm)
    rw [if_neg hlen, if_neg hlen]
    intro hcontra
    have h2 := List.append_cancel_left hcontra
    have h3 := (List.cons.inj h2).2
    have h4 := natToStr_inj _ _ h3
    have hms1 : q1.questionNumber ∈
        List.insertionSort (· ≤ ·) (collidingNumbers qs (buildBaseSlug q2)) :=
      ((List.perm_insertionSort _ _).mem_iff).2 hm1
    have hms2 : q2.questionNumber ∈
        List.insertionSort (· ≤ ·) (collidingNumbers qs (buildBaseSlug q2)) :=
      ((List.perm_insertionSort _ _).mem_iff).2 hm2
    exact idxOfN_ne _ _ _ hms1 hms2 hneq (by omega)
  · have key : ∀ t1 t2 : Str, (t1 = [] ∨ ∃ r, t1 = '-' :: r) → (t2 = [] ∨ ∃ r, t2 = '-' :: r) →
        (P ++ natToStr q1.questionNumber) ++ t1 = (P ++ natToStr q2.questionNumber) ++ t2 →
        False := by
      intro t1 t2 ht1 ht2 heq2
      rw [List.append_assoc, List.append_assoc] at heq2
      obtain ⟨hd, _⟩ := digits_split (natToStr q1.questionNumber) (natToStr q2.questionNumber)
        t1 t2 (natToStr_digits _) (natToStr_digits _) (natToStr_ne_nil _) (natToStr_ne_nil _)
        ht1 ht2 (List.append_cancel_left heq2)
      exact hneq (natToStr_inj _ _ hd)
    intro hcontra
    by_cases c1 : (collidingNumbers qs (buildBaseSlug q1)).length = 1 <;>
      by_cases c2 : (collidingNumbers qs (buildBaseSlug q2)).length = 1
    · rw [if_pos c1, if_pos c2, hp1, hp2] at hcontra
      exact key [] [] (Or.inl rfl) (Or.inl rfl)
        (by rw [List.append_nil, List.append_nil]; exact hcontra)
    · rw [if_pos c1, if_neg c2, hp1, hp2] at hcontra
      exact key [] ('-' :: natToStr (idxOfN q2.questionNumber
          (List.insertionSort (· ≤ ·) (collidingNumbers qs (P ++ natToStr q2.questionNumber)))
            + 1))
        (Or.inl rfl) (Or.inr ⟨_, rfl⟩) (by rw [List.append_nil]; exact hcontra)
    · rw [if_neg c1, if_pos c2, hp1, hp2] at hcontra
      exact key ('-' :: natToStr (idxOfN q1.questionNumber
          (List.insertionSort (· ≤ ·) (collidingNumbers qs (P ++ natToStr q1.questionNumber)))
            + 1)) []
        (Or.inr ⟨_, rfl⟩) (Or.inl rfl) (by rw [List.append_nil]; exact hcontra)
    · rw [if_neg c1, if_neg c2, hp1, hp2] at hcontra
      exact key ('-' :: natToStr (idxOfN q1.questionNumber
          (List.insertionSort (· ≤ ·) (collidingNumbers qs (P ++ natToStr q1.questionNumber)))
            + 1))
        ('-' :: natToStr (idxOfN q2.questionNumber
          (List.insertionSort (· ≤ ·) (collidingNumbers qs (P ++ natToStr q2.questionNumber)))
            + 1))
        (Or.inr ⟨_, rfl⟩) (Or.inr ⟨_, rfl⟩) hcontra

/-- C1: for an input list with distinct question numbers, the map built
by `generateAllSlugs` sends each question's number to its base slug when
no other question shares that base slug, and otherwise to
`base-<rank>` where rank is the 1-based position of the question's
number in the ascending sort of the numbers sharing the base slug;
hence questions with identical statement, exam and topic (and no
sub-exam) all receive distinct slugs. -/
theorem generateAllSlugs_spec (qs : List Question)
    (hnodup : (qs.map (fun q => q.questionNumber)).Nodup) :
    (∀ q ∈ qs, alLookup (generateAllSlugs qs) q.questionNumber =
      some (if (collidingNumbers qs (buildBaseSlug q)).length = 1 then buildBaseSlug q
        else buildBaseSlug q ++ '-' :: natToStr
          (idxOfN q.questionNumber
            (List.insertionSort (· ≤ ·) (collidingNumbers qs (buildBaseSlug q))) + 1))) ∧
    (∀ q1 ∈ qs, ∀ q2 ∈ qs,
      q1.statement = q2.statement → q1.exam = q2.exam →
      q1.subExam = none → q2.subExam = none → q1.topic = q2.topic →
      q1.questionNumber ≠ q2.questionNumber →
      alLookup (generateAllSlugs qs) q1.questionNumber ≠
        alLookup (generateAllSlugs qs) q2.questionNumber) := by
  constructor
  · intro q hq
    rw [generateAllSlugs_lookup qs hnodup q hq, slugAssigned_eq qs q hq]
  · intro q1 hq1 q2 hq2 hs he hsub1 hsub2 ht hneq
    rw [generateAllSlugs_lookup qs hnodup q1 hq1, generateAllSlugs_lookup qs hnodup q2 hq2]
    intro hcontra
    exact slugAssigned_ne qs q1 q2 hq1 hq2 hs he (hsub1.trans hsub2.symm) ht hneq
      (Option.some_inj.1 hcontra)

/-- C1 witness: the spec §8 collision example — two questions sharing
statement `What is 2+2?`, exam `CAT`, topic `Arithmetic`, numbered 3 and
9; the lower number gets `-1`, the other `-2`, and the slugs differ. -/
theorem generateAllSlugs_spec_witness :
    (([qDup3, qDup9].map (fun q => q.questionNumber)).Nodup) ∧
      alLookup (generateAllSlugs [qDup3, qDup9]) 3 =
        some (strL "what-is-22-cat-arithmetic-1") ∧
      alLookup (generateAllSlugs [qDup3, qDup9]) 9 =
        some (strL "what-is-22-cat-arithmetic-2") ∧
      alLookup (generateAllSlugs [qDup3, qDup9]) 3 ≠
        alLookup (generateAllSlugs [qDup3, qDup9]) 9 :=
  ⟨by decide, by decide, by decide,
    (generateAllSlugs_spec [qDup3, qDup9] (by decide)).2 qDup3 (by decide) qDup9 (by decide)
      rfl rfl rfl rfl rfl (by decide)⟩
